import Mathlib

/-!
Shallow embedding of the tiny-fe directory browser/jumper (Rust sources
src/hotkeys.rs, src/entry.rs, src/index.rs, src/app.rs) together with
theorems settling the specification claims.

Modelling conventions:
* Rust u64/usize/u32 become Nat; f64 rank/score values become Rat with the
  exact decimal constants of the source; debug-mode arithmetic panics and
  assertion failures are modelled by an Option-valued result (none = panic).
* Rust HashMap/HashSet become association lists / plain lists; only lookup
  and membership semantics matter for the embedded operations.
* The filesystem (Path::exists) is passed in as an oracle fs : String → Bool,
  and the clock as an explicit Nat argument.
-/

set_option maxRecDepth 4000

namespace TinyFe

/-- Key symbols used by the repository (crossterm KeyCode, restricted to the
variants the source constructs). -/
inductive KeyCode where
  | char (c : Char)
  | home
  | endKey
  | esc
  | enter
  | backspace
  | up
  | down
  deriving DecidableEq, Repr

/-- crossterm KeyModifiers bitflags modelled as Nat: NONE = 0, SHIFT = 1,
CONTROL = 2, ALT = 4. -/
def KeyModifiers.NONE : Nat := 0

def KeyModifiers.SHIFT : Nat := 1

def KeyModifiers.CONTROL : Nat := 2

/-- src/hotkeys.rs: KeyCombo = key symbol plus modifier flags. -/
structure KeyCombo where
  key_code : KeyCode
  modifiers : Nat
  deriving DecidableEq, Repr

/-- KeyCombo::from(char): plain character, no modifiers. -/
def KeyCombo.fromChar (c : Char) : KeyCombo :=
  { key_code := KeyCode.char c, modifiers := 0 }

/-- KeyCombo::from(KeyCode): no modifiers. -/
def KeyCombo.fromCode (k : KeyCode) : KeyCombo :=
  { key_code := k, modifiers := 0 }

/-- src/app.rs: ListMode. -/
inductive ListMode where
  | directory
  | frecent
  deriving DecidableEq, Repr

/-- src/app.rs: InputMode. -/
inductive InputMode where
  | normal
  | search
  deriving DecidableEq, Repr

/-- src/app.rs: Action (closed tagged union of bound hotkey operations).
The variant exitSearchMode is referenced by
HotkeysRegistry::new_with_default_system_hotkeys in src/hotkeys.rs although
the snapshot of src/app.rs spells the enum without it; it is included here so
that the registration table of src/hotkeys.rs can be embedded verbatim. -/
inductive Action where
  | selectNext
  | selectPrevious
  | selectFirst
  | selectLast
  | changeDirectoryToSelectedEntry
  | changeDirectoryToParent
  | changeDirectoryToEntryWithIndex (i : Nat)
  | switchToListMode (m : ListMode)
  | switchToInputMode (m : InputMode)
  | resetSearchInput
  | exitSearchInput
  | exitSearchMode
  | searchInputBackspace
  | toggleHelp
  | exit
  deriving DecidableEq, Repr

/-- src/hotkeys.rs: HotkeysTrieNode<T> = children map (KeyCombo -> node) plus
optional terminal value; the HashMap of children is modelled by an
association list. -/
inductive HotkeysTrieNode (T : Type) where
  | mk (children : List (KeyCombo × HotkeysTrieNode T)) (value : Option T)

namespace HotkeysTrieNode

def children : HotkeysTrieNode T → List (KeyCombo × HotkeysTrieNode T)
  | mk cs _ => cs

def value : HotkeysTrieNode T → Option T
  | mk _ v => v

/-- HotkeysTrie::new: empty root. -/
def empty : HotkeysTrieNode T := mk [] none

/-- HashMap child lookup: first association with the given key. -/
def getChild (cs : List (KeyCombo × HotkeysTrieNode T)) (k : KeyCombo) :
    Option (HotkeysTrieNode T) :=
  (cs.find? (fun kv => decide (kv.1 = k))).map (fun kv => kv.2)

/-- HashMap insert: replace the first association with the key, else append. -/
def setChild (cs : List (KeyCombo × HotkeysTrieNode T)) (k : KeyCombo)
    (n : HotkeysTrieNode T) : List (KeyCombo × HotkeysTrieNode T) :=
  match cs with
  | [] => [(k, n)]
  | kv :: rest =>
      if kv.1 = k then (k, n) :: rest else kv :: setChild rest k n

/-- HotkeysTrie::insert: walk/create nodes for each token, set the terminal
value (overwriting any prior value at that exact path). -/
def insert : List KeyCombo → HotkeysTrieNode T → T → HotkeysTrieNode T
  | [], mk cs _, v => mk cs (some v)
  | k :: rest, mk cs val, v =>
      mk (setChild cs k (insert rest ((getChild cs k).getD empty) v)) val

/-- HotkeysTrie::get_node: follow the sequence; None if any token is missing. -/
def getNode : List KeyCombo → HotkeysTrieNode T → Option (HotkeysTrieNode T)
  | [], t => some t
  | k :: rest, t =>
      match getChild t.children k with
      | some c => getNode rest c
      | none => none

/-- HotkeysTrie::get_value: exact lookup; None when the path does not fully
exist or exists without a terminal value. -/
def getValue (ks : List KeyCombo) (t : HotkeysTrieNode T) : Option T :=
  (getNode ks t).bind value

end HotkeysTrieNode

/-- src/hotkeys.rs: HotkeysRegistry<C, T>; the per-context system-hotkey map is
an association list, the entry tier a single trie, with registration counters
exactly as in the source. -/
structure HotkeysRegistry (C T : Type) where
  system_hotkeys : List (C × HotkeysTrieNode T)
  system_hotkeys_count : Nat
  entry_hotkeys : HotkeysTrieNode T
  entry_hotkeys_count : Nat

namespace HotkeysRegistry

variable {C T : Type} [DecidableEq C]

/-- HotkeysRegistry::new. -/
def new : HotkeysRegistry C T :=
  { system_hotkeys := []
    system_hotkeys_count := 0
    entry_hotkeys := HotkeysTrieNode.empty
    entry_hotkeys_count := 0 }

/-- HashMap lookup of the system trie registered for a context. -/
def systemTrieOf (reg : HotkeysRegistry C T) (context : C) :
    Option (HotkeysTrieNode T) :=
  (reg.system_hotkeys.find? (fun kv => decide (kv.1 = context))).map (fun kv => kv.2)

/-- HashMap entry(context).or_default() followed by writing the updated trie
back: replace in place if present, else append. -/
def systemMapUpdate (m : List (C × HotkeysTrieNode T)) (context : C)
    (f : HotkeysTrieNode T → HotkeysTrieNode T) : List (C × HotkeysTrieNode T) :=
  match m with
  | [] => [(context, f HotkeysTrieNode.empty)]
  | kv :: rest =>
      if kv.1 = context then (context, f kv.2) :: rest
      else kv :: systemMapUpdate rest context f

/-- HotkeysRegistry::register_system_hotkey. -/
def register_system_hotkey (reg : HotkeysRegistry C T) (context : C)
    (key_combos : List KeyCombo) (value : T) : HotkeysRegistry C T :=
  { reg with
    system_hotkeys_count := reg.system_hotkeys_count + 1
    system_hotkeys :=
      systemMapUpdate reg.system_hotkeys context
        (fun trie => HotkeysTrieNode.insert key_combos trie value) }

/-- HotkeysRegistry::register_entry_hotkey. -/
def register_entry_hotkey (reg : HotkeysRegistry C T)
    (key_combos : List KeyCombo) (value : T) : HotkeysRegistry C T :=
  { reg with
    entry_hotkeys_count := reg.entry_hotkeys_count + 1
    entry_hotkeys := HotkeysTrieNode.insert key_combos reg.entry_hotkeys value }

/-- HotkeysRegistry::clear_entry_hotkeys. -/
def clear_entry_hotkeys (reg : HotkeysRegistry C T) : HotkeysRegistry C T :=
  { reg with
    entry_hotkeys := HotkeysTrieNode.empty
    entry_hotkeys_count := 0 }

/-- HotkeysRegistry::get_hotkey_value: early None when both counters are zero;
otherwise system trie for the context first, entry tier as fallback. -/
def get_hotkey_value (reg : HotkeysRegistry C T) (context : C)
    (key_combos : List KeyCombo) : Option T :=
  if reg.system_hotkeys_count = 0 ∧ reg.entry_hotkeys_count = 0 then none
  else
    match (reg.systemTrieOf context).bind (HotkeysTrieNode.getValue key_combos) with
    | some v => some v
    | none => HotkeysTrieNode.getValue key_combos reg.entry_hotkeys

/-- HotkeysRegistry::get_hotkey_node: early None when both counters are zero;
otherwise system trie for the context first, entry tier as fallback. -/
def get_hotkey_node (reg : HotkeysRegistry C T) (context : C)
    (key_combos : List KeyCombo) : Option (HotkeysTrieNode T) :=
  if reg.system_hotkeys_count = 0 ∧ reg.entry_hotkeys_count = 0 then none
  else
    match (reg.systemTrieOf context).bind (HotkeysTrieNode.getNode key_combos) with
    | some n => some n
    | none => HotkeysTrieNode.getNode key_combos reg.entry_hotkeys

end HotkeysRegistry

/-- HotkeysRegistry::new_with_default_system_hotkeys (src/hotkeys.rs): the
fixed startup table of system hotkeys. -/
def new_with_default_system_hotkeys : HotkeysRegistry InputMode Action :=
  (((((((((((((((((((((HotkeysRegistry.new.register_system_hotkey InputMode.normal
    [KeyCombo.fromChar 'g', KeyCombo.fromChar 'g'] Action.selectFirst).register_system_hotkey
    InputMode.normal [KeyCombo.fromCode KeyCode.home] Action.selectFirst).register_system_hotkey
    InputMode.normal [{ key_code := KeyCode.char 'G', modifiers := KeyModifiers.SHIFT }]
      Action.selectLast).register_system_hotkey
    InputMode.normal [KeyCombo.fromCode KeyCode.endKey] Action.selectLast).register_system_hotkey
    InputMode.normal [KeyCombo.fromChar 'j'] Action.selectNext).register_system_hotkey
    InputMode.normal [KeyCombo.fromCode KeyCode.down] Action.selectNext).register_system_hotkey
    InputMode.normal [KeyCombo.fromChar 'k'] Action.selectPrevious).register_system_hotkey
    InputMode.normal [KeyCombo.fromCode KeyCode.up] Action.selectPrevious).register_system_hotkey
    InputMode.normal [{ key_code := KeyCode.char 'd', modifiers := KeyModifiers.CONTROL }]
      (Action.switchToListMode ListMode.directory)).register_system_hotkey
    InputMode.normal [KeyCombo.fromChar 'l'] Action.changeDirectoryToSelectedEntry).register_system_hotkey
    InputMode.normal [KeyCombo.fromChar 'h'] Action.changeDirectoryToParent).register_system_hotkey
    InputMode.normal [{ key_code := KeyCode.char 'f', modifiers := KeyModifiers.CONTROL }]
      (Action.switchToListMode ListMode.frecent)).register_system_hotkey
    InputMode.normal [KeyCombo.fromChar '?'] Action.toggleHelp).register_system_hotkey
    InputMode.normal [KeyCombo.fromChar '/'] (Action.switchToInputMode InputMode.search)).register_system_hotkey
    InputMode.normal [KeyCombo.fromCode KeyCode.esc] Action.exit).register_system_hotkey
    InputMode.normal [KeyCombo.fromChar 'q'] Action.exit).register_system_hotkey
    InputMode.normal [KeyCombo.fromCode KeyCode.enter] Action.changeDirectoryToSelectedEntry).register_system_hotkey
    InputMode.normal [KeyCombo.fromChar '_'] Action.resetSearchInput).register_system_hotkey
    InputMode.search [KeyCombo.fromCode KeyCode.esc] Action.exitSearchMode).register_system_hotkey
    InputMode.search [KeyCombo.fromCode KeyCode.enter] Action.exitSearchInput).register_system_hotkey
    InputMode.search [KeyCombo.fromCode KeyCode.backspace] Action.searchInputBackspace)

/-- src/hotkeys.rs: PREFERRED_KEY_COMBOS_IN_ORDER, the ergonomically
pre-ordered pool of 31 preferred single-key combos. -/
def PREFERRED_KEY_COMBOS_IN_ORDER : List KeyCombo :=
  [KeyCombo.fromChar 'a', KeyCombo.fromChar 's', KeyCombo.fromChar 'w',
   KeyCombo.fromChar 'e', KeyCombo.fromChar 'r', KeyCombo.fromChar 't',
   KeyCombo.fromChar 'z', KeyCombo.fromChar 'x', KeyCombo.fromChar 'c',
   KeyCombo.fromChar 'v', KeyCombo.fromChar 'b', KeyCombo.fromChar 'y',
   KeyCombo.fromChar 'u', KeyCombo.fromChar 'i', KeyCombo.fromChar 'o',
   KeyCombo.fromChar 'p', KeyCombo.fromChar 'n', KeyCombo.fromChar 'm',
   KeyCombo.fromChar ',', KeyCombo.fromChar '1', KeyCombo.fromChar '2',
   KeyCombo.fromChar '3', KeyCombo.fromChar '4', KeyCombo.fromChar '5',
   KeyCombo.fromChar '6', KeyCombo.fromChar '7', KeyCombo.fromChar '8',
   KeyCombo.fromChar '9', KeyCombo.fromChar '0', KeyCombo.fromChar '-',
   KeyCombo.fromChar '=']

/-- src/entry.rs: EntryKind. -/
inductive EntryKind where
  | file (extension : Option String)
  | directory
  deriving DecidableEq, Repr

/-- src/entry.rs: Entry — the (path, kind, display name) tuple provided by the
directory-listing collaborator. -/
structure Entry where
  path : String
  kind : EntryKind
  name : String
  deriving DecidableEq, Repr

/-- src/entry.rs + src/hotkeys.rs: EntryRenderData. The snapshot of
src/entry.rs spells the post-search character field next_char and carries a
legacy single-char shortcut, while src/hotkeys.rs accesses the same record
through the field names illegal_char_for_hotkey and key_combo_sequence; this
embedding carries both views in one structure (pre is the source field named
after the text before the search hit, which Lean reserves). -/
structure EntryRenderData where
  is_dynamic : Bool
  pre : String
  search_hit : String
  suffix : String
  illegal_char_for_hotkey : Option Char
  kind : EntryKind
  shortcut : Option Char
  key_combo_sequence : Option (List KeyCombo)
  deriving DecidableEq, Repr

/-- First index at which pat occurs as a contiguous run inside hay
(str::find at character granularity). -/
def findSubstrIdx (hay pat : List Char) : Option Nat :=
  if pat.isPrefixOf hay then some 0
  else
    match hay with
    | [] => none
    | _ :: t => (findSubstrIdx t pat).map (fun i => i + 1)

/-- Rust str::contains: substring containment. -/
def strContains (s pat : String) : Bool :=
  (findSubstrIdx s.data pat.data).isSome

/-- Rust str::to_lowercase, at character granularity (ASCII-faithful). -/
def strToLower (s : String) : String :=
  String.mk (s.data.map Char.toLower)

/-- src/entry.rs: EntryRenderData::from_entry. Byte slicing of the name at the
match index is modelled at character granularity (the index is found in the
lowercased name, which has the same character count for the names involved). -/
def EntryRenderData.from_entry (entry : Entry) (search_query : String) :
    EntryRenderData :=
  if entry.name = ".." then
    { is_dynamic := true, pre := entry.name, search_hit := "", suffix := ""
      illegal_char_for_hotkey := none, kind := EntryKind.directory
      shortcut := none, key_combo_sequence := none }
  else if search_query = "" then
    { is_dynamic := false, pre := entry.name, search_hit := "", suffix := ""
      illegal_char_for_hotkey := entry.name.data.head?, kind := entry.kind
      shortcut := none, key_combo_sequence := none }
  else
    let name := strToLower entry.name
    let query := strToLower search_query
    match findSubstrIdx name.data query.data with
    | some index =>
        let pre := String.mk (entry.name.data.take index)
        let search_hit := String.mk ((entry.name.data.drop index).take query.data.length)
        let suffix := String.mk (entry.name.data.drop (index + query.data.length))
        { is_dynamic := false, pre := pre, search_hit := search_hit
          suffix := suffix, illegal_char_for_hotkey := suffix.data.head?
          kind := entry.kind, shortcut := none, key_combo_sequence := none }
    | none =>
        { is_dynamic := false, pre := entry.name, search_hit := "", suffix := ""
          illegal_char_for_hotkey := entry.name.data.head?, kind := entry.kind
          shortcut := none, key_combo_sequence := none }

/-- src/hotkeys.rs: HotkeysRegistry::generate_sequence_permutations — all
length-len sequences over key_combos with repetition, first symbol varying
slowest (the recursive fill order of the source). -/
def generate_sequence_permutations (key_combos : List KeyCombo) :
    Nat → List (List KeyCombo)
  | 0 => [[]]
  | n + 1 =>
      key_combos.flatMap (fun k =>
        (generate_sequence_permutations key_combos n).map (fun s => k :: s))

/-- The while loop of assign_hotkeys: sequence_length is a u32 starting at 1
and incremented while available^length < directory count; a debug build
panics when the increment overflows u32::MAX, modelled by fuel exhaustion. -/
def seqLenFuel (P N : Nat) : Nat → Nat → Option Nat
  | 0, _ => none
  | fuel + 1, l => if N ≤ P ^ l then some l else seqLenFuel P N fuel (l + 1)

def u32_max : Nat := 4294967295

/-- The computed sequence length of an assign_hotkeys pass (none = the loop
never exits and the u32 counter overflows). -/
def computeSeqLen (P N : Nat) : Option Nat :=
  seqLenFuel P N u32_max 1

/-- The enumerate-and-filter loop collecting indexes of Directory entries. -/
def directoryIndexesAux : Nat → List EntryRenderData → List Nat
  | _, [] => []
  | i, d :: ds =>
      if d.kind = EntryKind.directory then i :: directoryIndexesAux (i + 1) ds
      else directoryIndexesAux (i + 1) ds

def directoryIndexes (data : List EntryRenderData) : List Nat :=
  directoryIndexesAux 0 data

/-- In-place update of one list element (Rust slice index assignment). -/
def modifyAt {α : Type} : List α → Nat → (α → α) → List α
  | [], _, _ => []
  | a :: as, 0, f => f a :: as
  | a :: as, n + 1, f => a :: modifyAt as n f

/-- The assignment loop of assign_hotkeys: for each (directory index, sequence)
pair, store the sequence on the render datum and register it in the entry tier
bound to ChangeDirectoryToEntryWithIndex. -/
def applyAssignments (reg : HotkeysRegistry InputMode Action)
    (data : List EntryRenderData) :
    List (Nat × List KeyCombo) → HotkeysRegistry InputMode Action × List EntryRenderData
  | [] => (reg, data)
  | (di, p) :: rest =>
      applyAssignments
        (reg.register_entry_hotkey p (Action.changeDirectoryToEntryWithIndex di))
        (modifyAt data di (fun d => { d with key_combo_sequence := some p }))
        rest

/-- The illegal key codes of a render pass: every entry's illegal character
(files included), as KeyCode::Char, a HashSet in the source. -/
def illegalKeyCodes (data : List EntryRenderData) : List KeyCode :=
  (data.filterMap (fun d => d.illegal_char_for_hotkey)).map KeyCode.char

/-- The available pool of a render pass: the preferred combos, in pool order,
whose key code is not illegal. -/
def availableCombos (data : List EntryRenderData)
    (preferred_key_combos_in_order : List KeyCombo) : List KeyCombo :=
  preferred_key_combos_in_order.filter
    (fun kc => decide (¬ kc.key_code ∈ illegalKeyCodes data))

/-- src/hotkeys.rs: HotkeysRegistry::assign_hotkeys. Result none models a
panic (the u32 overflow of the length loop, or the assert! on the number of
generated permutations). -/
def assign_hotkeys (reg : HotkeysRegistry InputMode Action)
    (data : List EntryRenderData) (preferred_key_combos_in_order : List KeyCombo) :
    Option (HotkeysRegistry InputMode Action × List EntryRenderData) :=
  let reg1 := reg.clear_entry_hotkeys
  let dirIdxs := directoryIndexes data
  let n := dirIdxs.length
  if n = 0 then some (reg1, data)
  else
    let available := availableCombos data preferred_key_combos_in_order
    let p := available.length
    if p < 2 ∧ n > 1 then some (reg1, data)
    else
      match computeSeqLen p n with
      | none => none
      | some len =>
          let perms := generate_sequence_permutations available len
          if perms.length < n then none
          else some (applyAssignments reg1 data (dirIdxs.zip perms))

/-- src/index.rs: DirectoryIndexEntry — rank (f64, modelled exactly over Rat)
and last_accessed (u64 epoch seconds, modelled as Nat). -/
structure DirectoryIndexEntry where
  rank : ℚ
  last_accessed : Nat
  deriving DecidableEq, Repr

namespace DirectoryIndexEntry

/-- DirectoryIndexEntry::new at clock value now. -/
def new (now : Nat) : DirectoryIndexEntry :=
  { rank := 0, last_accessed := now }

/-- DirectoryIndexEntry::update at clock value now: decay the previous rank by
1 percent and add the fixed access bonus. -/
def update (e : DirectoryIndexEntry) (now : Nat) : DirectoryIndexEntry :=
  { last_accessed := now, rank := e.rank * (99 / 100 : ℚ) + 1 }

/-- DirectoryIndexEntry::frecent_score at clock value now. The source computes
dx = now - last_accessed on u64, which in a debug build panics on underflow:
none models that panic; otherwise the rupa/z formula
10000 * rank * (3.75 / ((0.0001 * dx + 1.0) + 0.25)) evaluated exactly. -/
def frecent_score (e : DirectoryIndexEntry) (now : Nat) : Option ℚ :=
  if e.last_accessed ≤ now then
    let dx : ℚ := (now - e.last_accessed : Nat)
    some (10000 * e.rank * ((375 / 100 : ℚ) / (((1 / 10000 : ℚ) * dx + 1) + (1 / 4 : ℚ))))
  else none

end DirectoryIndexEntry

/-- The in-memory table of DirectoryIndex: an association list from absolute
path (String) to entry; a HashMap in the source, so keys are unique and only
lookup/remove/insert semantics matter. The on-disk path field of the struct is
not modelled; persistence works on explicit file contents. -/
abbrev IndexData := List (String × DirectoryIndexEntry)

/-- HashMap::get on the table. -/
def indexLookup (data : IndexData) (path : String) : Option DirectoryIndexEntry :=
  (data.find? (fun pe => decide (pe.1 = path))).map (fun pe => pe.2)

/-- HashMap update-in-place of an existing key (used by push on a hit). -/
def indexUpdate (data : IndexData) (path : String)
    (f : DirectoryIndexEntry → DirectoryIndexEntry) : IndexData :=
  match data with
  | [] => []
  | pe :: rest =>
      if pe.1 = path then (pe.1, f pe.2) :: rest
      else pe :: indexUpdate rest path f

/-- HashMap::remove of a key (used by the pruning loop of z). -/
def indexRemove (data : IndexData) (path : String) : IndexData :=
  match data with
  | [] => []
  | pe :: rest => if pe.1 = path then rest else pe :: indexRemove rest path

/-- HashMap::insert of a fresh binding (replaces an existing key, else
appends). -/
def indexInsert (data : IndexData) (path : String) (e : DirectoryIndexEntry) :
    IndexData :=
  match data with
  | [] => [(path, e)]
  | pe :: rest =>
      if pe.1 = path then (path, e) :: rest else pe :: indexInsert rest path e

/-- src/index.rs: DirectoryIndex::push at clock value now, with fs the
Path::exists oracle. Persistence (save_to_disk after every effective push) is
not part of the returned value; C9 treats serialization separately. -/
def DirectoryIndex.push (fs : String → Bool) (now : Nat) (data : IndexData)
    (path : String) : IndexData :=
  if fs path = false then data
  else
    match indexLookup data path with
    | some _ => indexUpdate data path (fun e => e.update now)
    | none => indexInsert data path (DirectoryIndexEntry.new now)

/-- Rust char-level split (str::split(sep)): always at least one piece; empty
pieces between consecutive separators are kept. -/
def splitChar (sep : Char) : List Char → List (List Char)
  | [] => [[]]
  | c :: cs =>
      if c = sep then [] :: splitChar sep cs
      else
        match splitChar sep cs with
        | [] => [[c]]
        | piece :: rest => (c :: piece) :: rest

/-- Path::components of an absolute-or-relative path string: a leading root
marker when the string starts with the separator, then the nonempty pieces
between separators. -/
def pathComponents (s : String) : List String :=
  let parts := ((splitChar '/' s.data).map String.mk).filter (fun p => p ≠ "")
  if s.data.head? = some '/' then "/" :: parts else parts

/-- Path::starts_with: component-wise prefix (other.starts_with(candidate)
holds when candidate's components are a prefix of other's). -/
def pathStartsWith (other candidate : String) : Bool :=
  (pathComponents candidate).isPrefixOf (pathComponents other)

/-- Path::components().count(). -/
def pathComponentsCount (s : String) : Nat :=
  (pathComponents s).length

/-- The comparator of the fallback sort in z: match tier ascending, frecent
score descending, then fewer path components first. The scores are exact
rationals, so partial_cmp never falls back to Equal through NaN. -/
def zLess (a b : String × ℚ × Nat) : Bool :=
  if a.2.2 ≠ b.2.2 then decide (a.2.2 < b.2.2)
  else if a.2.1 ≠ b.2.1 then decide (b.2.1 < a.2.1)
  else decide (pathComponentsCount a.1 < pathComponentsCount b.1)

/-- Stable insertion preserving the relative order of entries that compare
equal (Rust sort_by is stable). -/
def stableInsert (x : String × ℚ × Nat) :
    List (String × ℚ × Nat) → List (String × ℚ × Nat)
  | [] => [x]
  | y :: ys => if zLess y x then y :: stableInsert x ys else x :: y :: ys

/-- Stable sort by the z comparator. -/
def stableSortZ : List (String × ℚ × Nat) → List (String × ℚ × Nat)
  | [] => []
  | x :: xs => stableInsert x (stableSortZ xs)

/-- The pruning walk of z over the sorted candidates: return the first path
that exists on disk, removing every nonexistent path it skips; the Bool is
the is_index_updated flag (true = the table was persisted before returning). -/
def zPrune (fs : String → Bool) :
    IndexData → Bool → List (String × ℚ × Nat) → Option String × IndexData × Bool
  | data, updated, [] => (none, data, updated)
  | data, updated, (path, _, _) :: rest =>
      if fs path then (some path, data, updated)
      else zPrune fs (indexRemove data path) true rest

/-- The match-collection pass of z: for every entry compute its frecent score
and classify the path as tier 0 (case-sensitive contains) or tier 1
(case-insensitive contains), skipping non-matches. Scores are total here; the
caller has already ruled out the underflow panic. -/
def zMatches (now : Nat) (data : IndexData) (query : String) :
    List (String × ℚ × Nat) :=
  let query_lower := strToLower query
  data.filterMap (fun pe =>
    let score := ((pe.2.frecent_score now).getD 0)
    if strContains pe.1 query then some (pe.1, score, 0)
    else if strContains (strToLower pe.1) query_lower then some (pe.1, score, 1)
    else none)

/-- The paths matched by a z query (the first components of zMatches). -/
def matchedPaths (data : IndexData) (query : String) : List String :=
  data.filterMap (fun pe =>
    if strContains pe.1 query then some pe.1
    else if strContains (strToLower pe.1) (strToLower query) then some pe.1
    else none)

/-- src/index.rs: DirectoryIndex::z at clock value now with Path::exists
oracle fs. The outer Option models the debug-build panic of frecent_score
(the loop evaluates the score of every entry before matching, so any entry
with last_accessed in the future aborts the whole query). The result triple
is (returned best match, table after pruning, whether the table was saved). -/
def DirectoryIndex.z (fs : String → Bool) (now : Nat) (data : IndexData)
    (query : String) : Option (Option String × IndexData × Bool) :=
  if data.any (fun pe => decide (now < pe.2.last_accessed)) then none
  else
    let ms := zMatches now data query
    if ms.isEmpty then some (none, data, false)
    else
      match ms.find? (fun c => ms.all (fun o => pathStartsWith o.1 c.1)) with
      | some a => some (some a.1, data, false)
      | none => some (zPrune fs data false (stableSortZ ms))

/-- One record line of save_to_disk: path|rank|last_accessed followed by the
newline of writeln. printR is the f64 Display formatting of the rank, kept
as a parameter (the claim on persistence is stated modulo that formatting). -/
def saveLine (printR : ℚ → String) (pe : String × DirectoryIndexEntry) : String :=
  pe.1 ++ "|" ++ printR pe.2.rank ++ "|" ++ toString pe.2.last_accessed ++ "\n"

/-- src/index.rs: DirectoryIndex::save_to_disk — rewrite the whole file, one
record per entry (the writeln loop), in table order. -/
def DirectoryIndex.save_to_disk (printR : ℚ → String) : IndexData → String
  | [] => ""
  | pe :: rest => saveLine printR pe ++ DirectoryIndex.save_to_disk printR rest

/-- BufRead::lines yields the pieces between newlines without a final empty
piece after a trailing newline. -/
def dropLastEmpty : List (List Char) → List (List Char)
  | [] => []
  | [x] => if x = [] then [] else [x]
  | x :: y :: xs => x :: dropLastEmpty (y :: xs)

def linesOf (s : String) : List String :=
  (dropLastEmpty (splitChar '\n' s.data)).map String.mk

/-- Rust u64::from_str on a plain decimal string: every character must be a
digit and at least one digit must be present (the optional leading plus sign
of the Rust parser is not modelled). -/
def parseNatStr (s : String) : Option Nat :=
  if s.data ≠ [] ∧ s.data.all (fun c => c.isDigit) then
    some (s.data.foldl (fun acc c => acc * 10 + (c.toNat - 48)) 0)
  else none

/-- One line of load_from_disk: split on the pipe, skip lines without exactly
three fields, default unparsable numeric fields to 0. parseR is the f64
FromStr parse of the rank. -/
def parseLine (parseR : String → Option ℚ) (line : String) :
    Option (String × DirectoryIndexEntry) :=
  match (splitChar '|' line.data).map String.mk with
  | [p, r, n] =>
      some (p, { rank := (parseR r).getD 0, last_accessed := (parseNatStr n).getD 0 })
  | _ => none

/-- The loop body of load_from_disk: insert a well-formed record, skip a
malformed line. -/
def loadStep (parseR : String → Option ℚ) (acc : IndexData) (line : String) :
    IndexData :=
  match parseLine parseR line with
  | some (p, e) => indexInsert acc p e
  | none => acc

/-- src/index.rs: DirectoryIndex::load_from_disk applied to file contents:
insert every well-formed record into the fresh table, skipping malformed
lines. -/
def DirectoryIndex.load_from_disk (parseR : String → Option ℚ) (contents : String) :
    IndexData :=
  (linesOf contents).foldl (loadStep parseR) []

/-- Effects of the application layer that reach outside the embedded state
(change_directory performs filesystem IO and is out of scope per the spec). -/
inductive AppEffect where
  | changeDirTo (path : String)
  deriving DecidableEq, Repr

/-- The slice of src/app.rs App state that the search-mode key handler reads
and writes: the search input (value and char index), the keystroke buffer and
its timestamp, the entry list with its filter, the list selection, the input
mode and the exit flag. Timestamps are Nat milliseconds. -/
structure App where
  should_exit : Bool
  input_mode : InputMode
  search_value : String
  search_index : Nat
  entry_items : List Entry
  filtered_indices : Option (List Nat)
  list_selected : Option Nat
  collected_key_combos : List KeyCombo
  last_key_press_time : Option Nat
  deriving DecidableEq, Repr

namespace App

/-- App::INACTIVITY_TIMEOUT = 500 ms. -/
def INACTIVITY_TIMEOUT : Nat := 500

def usize_max : Nat := 18446744073709551615

/-- SearchInput::push. -/
def pushSearchChar (st : App) (c : Char) : App :=
  { st with search_value := st.search_value.push c, search_index := st.search_index + 1 }

/-- SearchInput::pop. -/
def popSearch (st : App) : App :=
  { st with search_value := String.mk st.search_value.data.dropLast
            search_index := st.search_index - 1 }

/-- The enumerate-and-filter loop of EntryList::update_filtered_indices. -/
def filteredIndicesAux (value : String) : Nat → List Entry → List Nat
  | _, [] => []
  | i, e :: es =>
      if strContains (strToLower e.name) value then i :: filteredIndicesAux value (i + 1) es
      else filteredIndicesAux value (i + 1) es

/-- App::update_filtered_indices: recompute the filter from the search input
and reset the list state (selection cleared). -/
def update_filtered_indices (st : App) : App :=
  let value := strToLower st.search_value
  { st with
    filtered_indices :=
      if value = "" then none else some (filteredIndicesAux value 0 st.entry_items)
    list_selected := none }

/-- EntryList::get_filtered_entries. -/
def get_filtered_entries (st : App) : List Entry :=
  match st.filtered_indices with
  | some idxs => idxs.filterMap (fun i => st.entry_items[i]?)
  | none => st.entry_items

/-- App::change_directory_to_entry_index: directories emit a change-directory
effect; a selected file sets the exit flag; an out-of-range index is ignored. -/
def change_directory_to_entry_index (st : App) (index : Nat) :
    App × Option AppEffect :=
  match (get_filtered_entries st)[index]? with
  | some e =>
      if e.kind = EntryKind.directory then (st, some (AppEffect.changeDirTo e.path))
      else ({ st with should_exit := true }, none)
  | none => (st, none)

/-- ratatui ListState::select_next. -/
def selNext : Option Nat → Option Nat
  | none => some 0
  | some i => some (i + 1)

/-- ratatui ListState::select_previous (saturating at 0, usize::MAX when
nothing was selected). -/
def selPrev : Option Nat → Option Nat
  | none => some usize_max
  | some i => some (i - 1)

/-- The characters of the buffered KeyCombos (only plain character keys
contribute, exactly as the flush loops of the source). -/
def charsOfCombos (ks : List KeyCombo) : List Char :=
  ks.filterMap (fun kc =>
    match kc.key_code with
    | KeyCode.char c => some c
    | _ => none)

/-- The stale-buffer branch of handle_key_event_for_search_mode: flush every
buffered character and the new key's character into the search input, re-run
the filter, clear buffer and timer, and return. -/
def searchFlushStale (st : App) (key : KeyCombo) : App × Option AppEffect :=
  let st1 := (charsOfCombos st.collected_key_combos).foldl pushSearchChar st
  let st2 :=
    match key.key_code with
    | KeyCode.char c => pushSearchChar st1 c
    | _ => st1
  let st3 := st2.update_filtered_indices
  ({ st3 with collected_key_combos := [], last_key_press_time := none }, none)

/-- The action dispatch of the search-mode handler (the match on the bound
action after the buffer was cleared). -/
def execSearchAction (st : App) (action : Action) : App × Option AppEffect :=
  match action with
  | Action.changeDirectoryToEntryWithIndex index =>
      let r := change_directory_to_entry_index st index
      ({ r.1 with input_mode := InputMode.normal, search_value := "", search_index := 0 }, r.2)
  | Action.searchInputBackspace =>
      if st.search_index > 0 then ((popSearch st).update_filtered_indices, none)
      else ({ st with input_mode := InputMode.normal }, none)
  | Action.selectNext => ({ st with list_selected := selNext st.list_selected }, none)
  | Action.selectPrevious => ({ st with list_selected := selPrev st.list_selected }, none)
  | Action.exitSearchInput => ({ st with input_mode := InputMode.normal }, none)
  | Action.changeDirectoryToSelectedEntry =>
      match st.filtered_indices with
      | some fi =>
          if fi.isEmpty then (st, none)
          else
            let st1 := { st with input_mode := InputMode.normal
                                 search_value := "", search_index := 0 }
            change_directory_to_entry_index st1 (st.list_selected.getD 0)
      | none => (st, none)
  | _ => (st, none)

/-- The non-timeout part of handle_key_event_for_search_mode: record the
keystroke time, append the combo to the buffer, resolve the buffer against
the registry (complete match executes the action once and clears the buffer;
a live prefix keeps buffering; a dead end flushes the buffered characters
into the search input and re-filters). -/
def searchModeCore (reg : HotkeysRegistry InputMode Action) (now : Nat)
    (st : App) (key : KeyCombo) : App × Option AppEffect :=
  let st := { st with last_key_press_time := some now
                      collected_key_combos := st.collected_key_combos ++ [key] }
  match reg.get_hotkey_node InputMode.search st.collected_key_combos with
  | some node =>
      match node.value with
      | some action =>
          execSearchAction
            { st with collected_key_combos := [], last_key_press_time := none } action
      | none => (st, none)
  | none =>
      let st1 :=
        if st.collected_key_combos.length > 1 then
          (charsOfCombos st.collected_key_combos).foldl pushSearchChar st
        else
          match key.key_code with
          | KeyCode.char c => pushSearchChar st c
          | _ => st
      let st2 := st1.update_filtered_indices
      ({ st2 with collected_key_combos := [], last_key_press_time := none }, none)

/-- src/app.rs: App::handle_key_event_for_search_mode at clock value now. -/
def handle_key_event_for_search_mode (reg : HotkeysRegistry InputMode Action)
    (now : Nat) (st : App) (key : KeyCombo) : App × Option AppEffect :=
  match st.last_key_press_time with
  | some t =>
      if INACTIVITY_TIMEOUT ≤ now - t then searchFlushStale st key
      else searchModeCore reg now st key
  | none => searchModeCore reg now st key

/-- Modelled from the spec: the claimed behaviour of a stale keystroke in
Search mode — flush every buffered KeyCombo's character into the literal
search text and re-run the filter, clear the buffer and timer, and then
append the new KeyCombo to the now-empty buffer and resolve it against the
hotkey registry like any other keystroke. -/
def claimedSearchStaleStep (reg : HotkeysRegistry InputMode Action) (now : Nat)
    (st : App) (key : KeyCombo) : App × Option AppEffect :=
  let st1 := (charsOfCombos st.collected_key_combos).foldl pushSearchChar st
  let st2 := st1.update_filtered_indices
  searchModeCore reg now
    { st2 with collected_key_combos := [], last_key_press_time := none } key

end App

/-- A concrete instantiation of the rank formatter parameter (f64 Display),
adequate for the small integer ranks used in concrete instances. -/
def printRankSimple : ℚ → String :=
  fun r => if r = 1 then "1" else if r = 5 then "5" else "0"

/-- A concrete instantiation of the rank parser parameter (f64 FromStr),
matching printRankSimple on the same values. -/
def parseRankSimple : String → Option ℚ :=
  fun s => if s = "1" then some 1 else if s = "5" then some 5 else none

/-! ## Helper lemmas about the index table -/

theorem indexLookup_nil (p : String) : indexLookup [] p = none := rfl

theorem indexLookup_cons (pe : String × DirectoryIndexEntry) (rest : IndexData)
    (p : String) :
    indexLookup (pe :: rest) p = if pe.1 = p then some pe.2 else indexLookup rest p := by
  by_cases h : pe.1 = p <;> simp [indexLookup, List.find?, h]

theorem indexLookup_indexInsert_self (data : IndexData) (p : String)
    (e : DirectoryIndexEntry) : indexLookup (indexInsert data p e) p = some e := by
  induction data with
  | nil => simp [indexInsert, indexLookup_cons, indexLookup_nil]
  | cons pe rest ih =>
      by_cases h : pe.1 = p
      · simp [indexInsert, h, indexLookup_cons]
      · simp [indexInsert, h, indexLookup_cons, ih]

theorem indexLookup_indexUpdate_self (data : IndexData) (p : String)
    (f : DirectoryIndexEntry → DirectoryIndexEntry) (e : DirectoryIndexEntry)
    (h : indexLookup data p = some e) :
    indexLookup (indexUpdate data p f) p = some (f e) := by
  induction data with
  | nil => simp [indexLookup_nil] at h
  | cons pe rest ih =>
      by_cases hp : pe.1 = p
      · simp [indexLookup_cons, hp] at h
        simp [indexUpdate, hp, indexLookup_cons, h]
      · simp [indexLookup_cons, hp] at h
        simp [indexUpdate, hp, indexLookup_cons, ih h]

/-- The push rule in both branches: the pushed path ends up present with
last_accessed = now, rank 0 when it was absent and rank*0.99 + 1.0 when it
was present. -/
theorem push_lookup_characterization (fs : String → Bool) (now : Nat)
    (data : IndexData) (p : String) (hfs : fs p = true) :
    (indexLookup data p = none →
      indexLookup (DirectoryIndex.push fs now data p) p =
        some { rank := 0, last_accessed := now }) ∧
    (∀ e, indexLookup data p = some e →
      indexLookup (DirectoryIndex.push fs now data p) p =
        some { rank := e.rank * (99 / 100 : ℚ) + 1, last_accessed := now }) := by
  constructor
  · intro hnone
    simp [DirectoryIndex.push, hfs, hnone]
    exact indexLookup_indexInsert_self data p _
  · intro e he
    simp [DirectoryIndex.push, hfs, he]
    exact indexLookup_indexUpdate_self data p _ e he

/-- The entry push leaves behind for the pushed path always carries
last_accessed = now. -/
theorem push_lookup_last_accessed (fs : String → Bool) (now : Nat)
    (data : IndexData) (p : String) (e : DirectoryIndexEntry)
    (hfs : fs p = true)
    (h : indexLookup (DirectoryIndex.push fs now data p) p = some e) :
    e.last_accessed = now := by
  rcases hchar : indexLookup data p with _ | e0
  · have := (push_lookup_characterization fs now data p hfs).1 hchar
    rw [this] at h
    cases h
    rfl
  · have := (push_lookup_characterization fs now data p hfs).2 e0 hchar
    rw [this] at h
    cases h
    rfl

/-! ## C8 -/

/-- C8 counterexample: pushing the same existing path four times yields rank
2.9701 on the fourth visit (0.99 × 1.99 + 1.0), not the 2.9601 stated by the
claim. -/
theorem C8_counterexample_fourth_rank :
    (indexLookup
        (DirectoryIndex.push (fun _ => true) 40
          (DirectoryIndex.push (fun _ => true) 30
            (DirectoryIndex.push (fun _ => true) 20
              (DirectoryIndex.push (fun _ => true) 10 [] "/t") "/t") "/t") "/t")
        "/t").map DirectoryIndexEntry.rank = some (29701 / 10000 : ℚ) ∧
    (29701 / 10000 : ℚ) ≠ (29601 / 10000 : ℚ) := by
  have s1 : indexLookup (DirectoryIndex.push (fun _ => true) 10 [] "/t") "/t" =
      some { rank := 0, last_accessed := 10 } :=
    (push_lookup_characterization (fun _ => true) 10 [] "/t" rfl).1 rfl
  have s2 : indexLookup
      (DirectoryIndex.push (fun _ => true) 20
        (DirectoryIndex.push (fun _ => true) 10 [] "/t") "/t") "/t" =
      some { rank := (0 : ℚ) * (99 / 100) + 1, last_accessed := 20 } :=
    (push_lookup_characterization (fun _ => true) 20 _ "/t" rfl).2 _ s1
  have s3 : indexLookup
      (DirectoryIndex.push (fun _ => true) 30
        (DirectoryIndex.push (fun _ => true) 20
          (DirectoryIndex.push (fun _ => true) 10 [] "/t") "/t") "/t") "/t" =
      some { rank := ((0 : ℚ) * (99 / 100) + 1) * (99 / 100) + 1, last_accessed := 30 } :=
    (push_lookup_characterization (fun _ => true) 30 _ "/t" rfl).2 _ s2
  have s4 : indexLookup
      (DirectoryIndex.push (fun _ => true) 40
        (DirectoryIndex.push (fun _ => true) 30
          (DirectoryIndex.push (fun _ => true) 20
            (DirectoryIndex.push (fun _ => true) 10 [] "/t") "/t") "/t") "/t") "/t" =
      some { rank := (((0 : ℚ) * (99 / 100) + 1) * (99 / 100) + 1) * (99 / 100) + 1
             last_accessed := 40 } :=
    (push_lookup_characterization (fun _ => true) 40 _ "/t" rfl).2 _ s3
  refine ⟨?_, by norm_num⟩
  rw [s4]
  simp only [Option.map_some']
  norm_num

/-- C8 (amended): push on an existing path updates an existing entry by
rank ← rank×0.99 + 1.0 and last_accessed ← now, and creates a missing entry
with rank 0.0 and last_accessed = now; repeated pushes of the same path
therefore yield the rank sequence 0.0, 1.0, 1.99, 2.9701, … following
r(n+1) = 0.99·r(n) + 1.0, the very first visit leaving rank at 0.0. -/
theorem C8_push_rank_rule :
    (∀ (fs : String → Bool) (now : Nat) (data : IndexData) (p : String),
      fs p = true →
      (indexLookup data p = none →
        indexLookup (DirectoryIndex.push fs now data p) p =
          some { rank := 0, last_accessed := now }) ∧
      (∀ e, indexLookup data p = some e →
        indexLookup (DirectoryIndex.push fs now data p) p =
          some { rank := e.rank * (99 / 100 : ℚ) + 1, last_accessed := now })) ∧
    ((indexLookup (DirectoryIndex.push (fun _ => true) 10 [] "/t") "/t").map
        DirectoryIndexEntry.rank = some 0 ∧
      (indexLookup
          (DirectoryIndex.push (fun _ => true) 20
            (DirectoryIndex.push (fun _ => true) 10 [] "/t") "/t") "/t").map
        DirectoryIndexEntry.rank = some 1 ∧
      (indexLookup
          (DirectoryIndex.push (fun _ => true) 30
            (DirectoryIndex.push (fun _ => true) 20
              (DirectoryIndex.push (fun _ => true) 10 [] "/t") "/t") "/t") "/t").map
        DirectoryIndexEntry.rank = some (199 / 100 : ℚ)) := by
  have s1 : indexLookup (DirectoryIndex.push (fun _ => true) 10 [] "/t") "/t" =
      some { rank := 0, last_accessed := 10 } :=
    (push_lookup_characterization (fun _ => true) 10 [] "/t" rfl).1 rfl
  have s2 : indexLookup
      (DirectoryIndex.push (fun _ => true) 20
        (DirectoryIndex.push (fun _ => true) 10 [] "/t") "/t") "/t" =
      some { rank := (0 : ℚ) * (99 / 100) + 1, last_accessed := 20 } :=
    (push_lookup_characterization (fun _ => true) 20 _ "/t" rfl).2 _ s1
  have s3 : indexLookup
      (DirectoryIndex.push (fun _ => true) 30
        (DirectoryIndex.push (fun _ => true) 20
          (DirectoryIndex.push (fun _ => true) 10 [] "/t") "/t") "/t") "/t" =
      some { rank := ((0 : ℚ) * (99 / 100) + 1) * (99 / 100) + 1, last_accessed := 30 } :=
    (push_lookup_characterization (fun _ => true) 30 _ "/t" rfl).2 _ s2
  refine ⟨fun fs now data p hfs => push_lookup_characterization fs now data p hfs,
    ?_, ?_, ?_⟩
  · rw [s1]
    simp only [Option.map_some']
  · rw [s2]
    simp only [Option.map_some']
    norm_num
  · rw [s3]
    simp only [Option.map_some']
    norm_num

/-- C8 witness: the creation rule applied at a concrete path and clock. -/
theorem C8_push_rank_rule_witness :
    ((fun (_ : String) => true) "/w" = true) ∧
    (indexLookup (DirectoryIndex.push (fun _ => true) 7 [] "/w") "/w" =
      some { rank := 0, last_accessed := 7 }) :=
  ⟨rfl, (C8_push_rank_rule.1 (fun _ => true) 7 [] "/w" rfl).1 rfl⟩

/-! ## C10 -/

/-- C10: frecent_score computes dx = now − last_accessed by unsigned
subtraction, so it is defined exactly when last_accessed ≤ now (a future
timestamp underflows, i.e. panics in a debug build); entries just written by
push satisfy the precondition for every later clock value; z evaluates the
score of every entry and therefore aborts whenever any entry has a future
last_accessed; and load_from_disk happily produces such an entry from a
persisted record with a future timestamp. -/
theorem C10_frecent_score_underflow :
    (∀ (e : DirectoryIndexEntry) (now : Nat),
      (e.frecent_score now).isSome ↔ e.last_accessed ≤ now) ∧
    (∀ (fs : String → Bool) (tpush tnow : Nat) (data : IndexData) (p : String)
      (e : DirectoryIndexEntry), fs p = true → tpush ≤ tnow →
      indexLookup (DirectoryIndex.push fs tpush data p) p = some e →
      (e.frecent_score tnow).isSome) ∧
    (∀ (fs : String → Bool) (now : Nat) (data : IndexData) (q : String),
      (∃ pe ∈ data, now < pe.2.last_accessed) →
      DirectoryIndex.z fs now data q = none) ∧
    (indexLookup (DirectoryIndex.load_from_disk parseRankSimple "/a|1|1000\n") "/a" =
        some { rank := 1, last_accessed := 1000 } ∧
      DirectoryIndexEntry.frecent_score { rank := 1, last_accessed := 1000 } 999 = none) := by
  refine ⟨?_, ?_, ?_, by decide, by decide⟩
  · intro e now
    by_cases h : e.last_accessed ≤ now <;>
      simp [DirectoryIndexEntry.frecent_score, h]
  · intro fs tpush tnow data p e hfs hle h
    have hlast := push_lookup_last_accessed fs tpush data p e hfs h
    simp [DirectoryIndexEntry.frecent_score, hlast, hle]
  · intro fs now data q h
    have hany : data.any (fun pe => decide (now < pe.2.last_accessed)) = true := by
      rw [List.any_eq_true]
      rcases h with ⟨pe, hmem, hlt⟩
      exact ⟨pe, hmem, by simpa using hlt⟩
    simp [DirectoryIndex.z, hany]

/-- C10 witness: the push conjunct applied at a concrete clock and path. -/
theorem C10_frecent_score_underflow_witness :
    ((fun (_ : String) => true) "/w" = true) ∧ (3 ≤ 5) ∧
    ((DirectoryIndexEntry.frecent_score { rank := 0, last_accessed := 3 } 5).isSome) :=
  ⟨rfl, by decide,
    C10_frecent_score_underflow.2.1 (fun _ => true) 3 5 [] "/w"
      { rank := 0, last_accessed := 3 } rfl (by decide) (by decide)⟩

/-! ## C3 -/

/-- C3: with a single matching path that has been deleted from disk, z's
ancestor short-circuit (a path is an ancestor of itself) returns the deleted
path without consulting the filesystem: the result is Some of the dead path,
the table still contains it, and nothing was persisted — contradicting both
the claim and the function's own documentation that nonexistent matches are
removed and skipped. -/
theorem C3_z_returns_deleted_only_match :
    DirectoryIndex.z (fun _ => false) 0 [("/a/b", { rank := 1, last_accessed := 0 })] "b" =
      some (some "/a/b", [("/a/b", { rank := 1, last_accessed := 0 })], false) ∧
    indexLookup [("/a/b", { rank := 1, last_accessed := 0 })] "/a/b" ≠ none := by
  constructor
  · decide
  · decide

/-! ## Lemmas about the sequence-length loop and the assignment loop -/

/-- With an empty available pool the while loop of assign_hotkeys never
terminates: 0^l = 0 stays below any positive directory count for every l ≥ 1,
so every fuel allowance is exhausted. -/
theorem seqLenFuel_zero_pool (N : Nat) (hN : 1 ≤ N) :
    ∀ (fuel l : Nat), 1 ≤ l → seqLenFuel 0 N fuel l = none := by
  intro fuel
  induction fuel with
  | zero => intro l _; rfl
  | succ fuel ih =>
      intro l hl
      have hpow : (0 : Nat) ^ l = 0 := Nat.zero_pow (Nat.pos_of_ne_zero (by omega))
      have hcond : ¬ N ≤ 0 ^ l := by
        rw [hpow]; omega
      simp [seqLenFuel, hcond]
      exact ih (l + 1) (by omega)

theorem computeSeqLen_zero_pool (N : Nat) (hN : 1 ≤ N) :
    computeSeqLen 0 N = none :=
  seqLenFuel_zero_pool N hN u32_max 1 (by norm_num)

theorem getElem?_modifyAt_ne {α : Type} :
    ∀ (l : List α) (i j : Nat) (f : α → α), i ≠ j → (modifyAt l i f)[j]? = l[j]? := by
  intro l
  induction l with
  | nil => intro i j f _; cases i <;> rfl
  | cons a as ih =>
      intro i j f hij
      cases i with
      | zero =>
          cases j with
          | zero => omega
          | succ k => simp [modifyAt]
      | succ n =>
          cases j with
          | zero => simp [modifyAt]
          | succ k =>
              simp only [modifyAt, List.getElem?_cons_succ]
              exact ih n k f (by omega)

theorem getElem?_modifyAt_self {α : Type} :
    ∀ (l : List α) (i : Nat) (f : α → α), (modifyAt l i f)[i]? = (l[i]?).map f := by
  intro l
  induction l with
  | nil => intro i f; cases i <;> rfl
  | cons a as ih =>
      intro i f
      cases i with
      | zero => simp [modifyAt]
      | succ n =>
          simp only [modifyAt, List.getElem?_cons_succ]
          exact ih n f

theorem applyAssignments_snd_getElem_ne
    (pairs : List (Nat × List KeyCombo)) :
    ∀ (reg : HotkeysRegistry InputMode Action) (data : List EntryRenderData)
      (j : Nat), (∀ pr ∈ pairs, pr.1 ≠ j) →
      ((applyAssignments reg data pairs).2)[j]? = data[j]? := by
  induction pairs with
  | nil => intro reg data j _; rfl
  | cons pr rest ih =>
      intro reg data j hne
      have h1 : pr.1 ≠ j := hne pr (List.mem_cons_self pr rest)
      calc ((applyAssignments reg data (pr :: rest)).2)[j]?
          = (modifyAt data pr.1
              (fun d => { d with key_combo_sequence := some pr.2 }))[j]? := by
            exact ih _ _ j (fun q hq => hne q (List.mem_cons_of_mem pr hq))
        _ = data[j]? := getElem?_modifyAt_ne data pr.1 j _ h1

/-- Every index collected by the directory scan points at a Directory entry at
the corresponding offset. -/
theorem directoryIndexesAux_spec :
    ∀ (ds : List EntryRenderData) (s j : Nat), j ∈ directoryIndexesAux s ds →
      ∃ k, ∃ h : k < ds.length, j = s + k ∧ ds[k].kind = EntryKind.directory := by
  intro ds
  induction ds with
  | nil => intro s j hj; simp [directoryIndexesAux] at hj
  | cons d rest ih =>
      intro s j hj
      by_cases hd : d.kind = EntryKind.directory
      · simp only [directoryIndexesAux, if_pos hd, List.mem_cons] at hj
        rcases hj with rfl | hj
        · exact ⟨0, by simp, by omega, by simpa using hd⟩
        · rcases ih (s + 1) j hj with ⟨k, hk, hjk, hkind⟩
          exact ⟨k + 1, by simpa using Nat.succ_lt_succ hk, by omega, by simpa using hkind⟩
      · simp only [directoryIndexesAux, if_neg hd] at hj
        rcases ih (s + 1) j hj with ⟨k, hk, hjk, hkind⟩
        exact ⟨k + 1, by simpa using Nat.succ_lt_succ hk, by omega, by simpa using hkind⟩

/-- Branch-level characterization of assign_hotkeys (the let bindings of the
definition unfolded). -/
theorem assign_hotkeys_eq (reg : HotkeysRegistry InputMode Action)
    (data : List EntryRenderData) (pool : List KeyCombo) :
    assign_hotkeys reg data pool =
      if (directoryIndexes data).length = 0 then some (reg.clear_entry_hotkeys, data)
      else if (availableCombos data pool).length < 2 ∧ (directoryIndexes data).length > 1 then
        some (reg.clear_entry_hotkeys, data)
      else
        match computeSeqLen (availableCombos data pool).length
            (directoryIndexes data).length with
        | none => none
        | some len =>
            if (generate_sequence_permutations (availableCombos data pool) len).length <
                (directoryIndexes data).length then none
            else some (applyAssignments reg.clear_entry_hotkeys data
              ((directoryIndexes data).zip
                (generate_sequence_permutations (availableCombos data pool) len))) := rfl

/-- assign_hotkeys propagates the non-termination of the length loop. -/
theorem assign_hotkeys_eq_none_of_seqLen_none
    (reg : HotkeysRegistry InputMode Action) (data : List EntryRenderData)
    (pool : List KeyCombo)
    (hn : (directoryIndexes data).length ≠ 0)
    (hguard : ¬ ((availableCombos data pool).length < 2 ∧
      (directoryIndexes data).length > 1))
    (hz : computeSeqLen (availableCombos data pool).length
      (directoryIndexes data).length = none) :
    assign_hotkeys reg data pool = none := by
  simp only [assign_hotkeys]
  rw [if_neg hn, if_neg hguard, hz]

/-! ## C7 -/

/-- C7: with one eligible directory and an available pool emptied by the
illegal characters, assign_hotkeys does not degrade: the guard only fires for
more than one directory, and the length loop never finds 0^L ≥ 1, so the u32
counter runs to overflow (a debug-build panic, modelled as none) instead of
terminating without shortcuts. -/
theorem C7_assign_hotkeys_empty_pool_panics :
    assign_hotkeys HotkeysRegistry.new
      [{ is_dynamic := false, pre := "", search_hit := "", suffix := ""
         illegal_char_for_hotkey := some 'a', kind := EntryKind.directory
         shortcut := none, key_combo_sequence := none }]
      [KeyCombo.fromChar 'a'] = none := by
  apply assign_hotkeys_eq_none_of_seqLen_none
  · decide
  · decide
  · rw [show availableCombos
        [{ is_dynamic := false, pre := "", search_hit := "", suffix := ""
           illegal_char_for_hotkey := some 'a', kind := EntryKind.directory
           shortcut := none, key_combo_sequence := none }]
        [KeyCombo.fromChar 'a'] = [] from by decide,
      show directoryIndexes
        [{ is_dynamic := false, pre := "", search_hit := "", suffix := ""
           illegal_char_for_hotkey := some 'a', kind := EntryKind.directory
           shortcut := none, key_combo_sequence := none }] = [0] from by decide]
    exact computeSeqLen_zero_pool 1 (by norm_num)

/-! ## C4 -/

/-- C4 counterexample: the synthetic parent placeholder ".." renders (via
EntryRenderData::from_entry) as a dynamic entry of kind Directory, and
assign_hotkeys — which tests only the kind — assigns it the first sequence
and registers it in the entry tier. -/
theorem C4_counterexample_parent_assigned :
    (EntryRenderData.from_entry
        { path := "/p/..", kind := EntryKind.directory, name := ".." } "").is_dynamic =
      true ∧
    (assign_hotkeys HotkeysRegistry.new
        [EntryRenderData.from_entry
          { path := "/p/..", kind := EntryKind.directory, name := ".." } ""]
        PREFERRED_KEY_COMBOS_IN_ORDER).map
      (fun r => (r.2.map (fun d => d.key_combo_sequence), r.1.entry_hotkeys_count)) =
      some ([some [KeyCombo.fromChar 'a']], 1) := by
  constructor
  · decide
  · decide

/-- C4 (amended): assign_hotkeys assigns key sequences only to entries whose
kind is Directory — every non-Directory entry comes out of the pass
untouched — but it does not exclude the synthetic parent placeholder: a ".."
render datum has kind Directory and is assigned a sequence and registered
like any other directory (the is_dynamic flag is consulted only by the
legacy EntryShortcutRegistry::assign_shortcuts in src/entry.rs). -/
theorem C4_assign_hotkeys_only_directories
    (reg reg' : HotkeysRegistry InputMode Action)
    (data data' : List EntryRenderData) (pool : List KeyCombo)
    (i : Nat) (d : EntryRenderData)
    (h : assign_hotkeys reg data pool = some (reg', data'))
    (hd : data[i]? = some d) (hkind : d.kind ≠ EntryKind.directory) :
    data'[i]? = some d := by
  rw [assign_hotkeys_eq] at h
  by_cases h0 : (directoryIndexes data).length = 0
  · rw [if_pos h0] at h
    simp only [Option.some.injEq, Prod.mk.injEq] at h
    rw [← h.2]
    exact hd
  · rw [if_neg h0] at h
    by_cases hg : (availableCombos data pool).length < 2 ∧
        (directoryIndexes data).length > 1
    · rw [if_pos hg] at h
      simp only [Option.some.injEq, Prod.mk.injEq] at h
      rw [← h.2]
      exact hd
    · rw [if_neg hg] at h
      rcases hcs : computeSeqLen (availableCombos data pool).length
          (directoryIndexes data).length with _ | len
      · rw [hcs] at h
        simp at h
      · rw [hcs] at h
        dsimp only at h
        by_cases hp : (generate_sequence_permutations (availableCombos data pool)
            len).length < (directoryIndexes data).length
        · rw [if_pos hp] at h
          simp at h
        · rw [if_neg hp] at h
          simp only [Option.some.injEq, Prod.ext_iff] at h
          rw [← h.2]
          rw [applyAssignments_snd_getElem_ne _ _ _ _ ?_]
          · exact hd
          · intro pr hpr heq
            have h1 : pr.1 ∈ directoryIndexes data := (List.of_mem_zip hpr).1
            obtain ⟨k, hk, hjk, hdir⟩ := directoryIndexesAux_spec data 0 pr.1 h1
            have hik : i = k := by omega
            subst hik
            rw [List.getElem?_eq_getElem hk] at hd
            cases hd
            exact hkind hdir

/-- C4 witness: a file entry survives an assignment pass untouched. -/
theorem C4_assign_hotkeys_only_directories_witness :
    (EntryKind.file none ≠ EntryKind.directory) ∧
    (([{ is_dynamic := false, pre := "x", search_hit := "", suffix := ""
         illegal_char_for_hotkey := some 'x', kind := EntryKind.file none
         shortcut := none, key_combo_sequence := none }] :
        List EntryRenderData)[0]? =
      some { is_dynamic := false, pre := "x", search_hit := "", suffix := ""
             illegal_char_for_hotkey := some 'x', kind := EntryKind.file none
             shortcut := none, key_combo_sequence := none }) :=
  ⟨by decide,
    C4_assign_hotkeys_only_directories HotkeysRegistry.new
      HotkeysRegistry.new.clear_entry_hotkeys
      [{ is_dynamic := false, pre := "x", search_hit := "", suffix := ""
         illegal_char_for_hotkey := some 'x', kind := EntryKind.file none
         shortcut := none, key_combo_sequence := none }]
      [{ is_dynamic := false, pre := "x", search_hit := "", suffix := ""
         illegal_char_for_hotkey := some 'x', kind := EntryKind.file none
         shortcut := none, key_combo_sequence := none }]
      [] 0 _ rfl rfl (by decide)⟩

/-! ## C5 -/

/-- C5 counterexample: the claim's fallback rule fails on a registry with no
registrations at all — get_hotkey_node short-circuits to None through the
counter guard, while no system trie is registered for the context and the
entry-tier lookup of the empty sequence would return the (empty) root node. -/
theorem C5_counterexample_empty_registry_node :
    ¬ (∀ (reg : HotkeysRegistry InputMode Action) (c : InputMode)
        (ks : List KeyCombo), reg.systemTrieOf c = none →
        reg.get_hotkey_node c ks = HotkeysTrieNode.getNode ks reg.entry_hotkeys) := by
  intro hclaim
  have h := hclaim HotkeysRegistry.new InputMode.normal [] rfl
  have hlhs : (HotkeysRegistry.new : HotkeysRegistry InputMode Action).get_hotkey_node
      InputMode.normal [] = none := rfl
  have hrhs : HotkeysTrieNode.getNode ([] : List KeyCombo)
      (HotkeysRegistry.new : HotkeysRegistry InputMode Action).entry_hotkeys =
      some HotkeysTrieNode.empty := rfl
  rw [hlhs, hrhs] at h
  cases h

/-- C5 (amended): provided at least one hotkey has been registered (so the
zero-count guard does not short-circuit), get_hotkey_value and
get_hotkey_node consult the system trie of the context first and fall back to
the entry tier exactly when the system-tier lookup fails; a system-tier match
always wins over any entry-tier binding for the same sequence. -/
theorem C5_system_tier_priority (reg : HotkeysRegistry InputMode Action)
    (c : InputMode) (ks : List KeyCombo)
    (hreg : ¬ (reg.system_hotkeys_count = 0 ∧ reg.entry_hotkeys_count = 0)) :
    (∀ v, (reg.systemTrieOf c).bind (HotkeysTrieNode.getValue ks) = some v →
      reg.get_hotkey_value c ks = some v) ∧
    ((reg.systemTrieOf c).bind (HotkeysTrieNode.getValue ks) = none →
      reg.get_hotkey_value c ks = HotkeysTrieNode.getValue ks reg.entry_hotkeys) ∧
    (∀ n, (reg.systemTrieOf c).bind (HotkeysTrieNode.getNode ks) = some n →
      reg.get_hotkey_node c ks = some n) ∧
    ((reg.systemTrieOf c).bind (HotkeysTrieNode.getNode ks) = none →
      reg.get_hotkey_node c ks = HotkeysTrieNode.getNode ks reg.entry_hotkeys) := by
  refine ⟨?_, ?_, ?_, ?_⟩
  · intro v hv
    simp [HotkeysRegistry.get_hotkey_value, if_neg hreg, hv]
  · intro hnone
    simp [HotkeysRegistry.get_hotkey_value, if_neg hreg, hnone]
  · intro n hn
    simp [HotkeysRegistry.get_hotkey_node, if_neg hreg, hn]
  · intro hnone
    simp [HotkeysRegistry.get_hotkey_node, if_neg hreg, hnone]

/-- C5 witness: on the default registry, the Normal-mode binding of q resolves
through the system tier. -/
theorem C5_system_tier_priority_witness :
    (¬ (new_with_default_system_hotkeys.system_hotkeys_count = 0 ∧
        new_with_default_system_hotkeys.entry_hotkeys_count = 0)) ∧
    ((new_with_default_system_hotkeys.systemTrieOf InputMode.normal).bind
        (HotkeysTrieNode.getValue [KeyCombo.fromChar 'q']) = some Action.exit) ∧
    new_with_default_system_hotkeys.get_hotkey_value InputMode.normal
      [KeyCombo.fromChar 'q'] = some Action.exit :=
  ⟨by decide, by decide,
    (C5_system_tier_priority new_with_default_system_hotkeys InputMode.normal
        [KeyCombo.fromChar 'q'] (by decide)).1 Action.exit (by decide)⟩

/-! ## C2 -/

/-- The paths of the match tuples collected by z are exactly matchedPaths. -/
theorem zMatches_map_fst (now : Nat) (data : IndexData) (q : String) :
    (zMatches now data q).map (fun m => m.1) = matchedPaths data q := by
  induction data with
  | nil => rfl
  | cons pe rest ih =>
      by_cases h1 : strContains pe.1 q = true
      · simp only [zMatches, matchedPaths, List.filterMap_cons, h1, if_true, List.map_cons]
        simpa [zMatches, matchedPaths] using ih
      · by_cases h2 : strContains (strToLower pe.1) (strToLower q) = true
        · simp only [zMatches, matchedPaths, List.filterMap_cons, h1, h2, if_false,
            if_true, Bool.false_eq_true, List.map_cons]
          simpa [zMatches, matchedPaths] using ih
        · simp only [zMatches, matchedPaths, List.filterMap_cons, h1, h2,
            Bool.false_eq_true, if_false]
          simpa [zMatches, matchedPaths] using ih

/-- C2: whenever some matched path is a component-wise ancestor of every
matched path, z returns such an ancestor immediately — the table is untouched,
nothing is persisted, and neither tier order nor frecency rank nor even disk
existence is consulted; in particular, over /a/common (rank 100),
/a/common/child (rank 200), /a/common/child/grandchild (rank 300), querying
"common" yields /a/common and querying "child" yields /a/common/child, for
every state of the filesystem. -/
theorem C2_ancestor_short_circuit :
    (∀ (fs : String → Bool) (now : Nat) (data : IndexData) (q : String),
      (∀ pe ∈ data, pe.2.last_accessed ≤ now) →
      (∃ m ∈ matchedPaths data q, ∀ o ∈ matchedPaths data q, pathStartsWith o m = true) →
      ∃ m', DirectoryIndex.z fs now data q = some (some m', data, false) ∧
        m' ∈ matchedPaths data q ∧
        ∀ o ∈ matchedPaths data q, pathStartsWith o m' = true) ∧
    (DirectoryIndex.z (fun _ => true) 1000
        [("/a/common", { rank := 100, last_accessed := 100 }),
         ("/a/common/child", { rank := 200, last_accessed := 200 }),
         ("/a/common/child/grandchild", { rank := 300, last_accessed := 300 })]
        "common" =
      some (some "/a/common",
        [("/a/common", { rank := 100, last_accessed := 100 }),
         ("/a/common/child", { rank := 200, last_accessed := 200 }),
         ("/a/common/child/grandchild", { rank := 300, last_accessed := 300 })], false)) ∧
    (DirectoryIndex.z (fun _ => true) 1000
        [("/a/common", { rank := 100, last_accessed := 100 }),
         ("/a/common/child", { rank := 200, last_accessed := 200 }),
         ("/a/common/child/grandchild", { rank := 300, last_accessed := 300 })]
        "child" =
      some (some "/a/common/child",
        [("/a/common", { rank := 100, last_accessed := 100 }),
         ("/a/common/child", { rank := 200, last_accessed := 200 }),
         ("/a/common/child/grandchild", { rank := 300, last_accessed := 300 })], false)) := by
  refine ⟨?_, by decide, by decide⟩
  intro fs now data q h1 h2
  have hany : data.any (fun pe => decide (now < pe.2.last_accessed)) = false := by
    rw [List.any_eq_false]
    intro pe hpe
    simpa using h1 pe hpe
  obtain ⟨m, hm, hall⟩ := h2
  have hfst : (zMatches now data q).map (fun x => x.1) = matchedPaths data q :=
    zMatches_map_fst now data q
  have hm' : m ∈ (zMatches now data q).map (fun x => x.1) := by rw [hfst]; exact hm
  obtain ⟨t, ht, htm⟩ := List.mem_map.mp hm'
  have hpred : (zMatches now data q).all
      (fun o => pathStartsWith o.1 t.1) = true := by
    rw [List.all_eq_true]
    intro o ho
    have homem : o.1 ∈ matchedPaths data q := by
      rw [← hfst]; exact List.mem_map_of_mem _ ho
    rw [htm]
    exact hall o.1 homem
  have hfind : ((zMatches now data q).find?
      (fun c => (zMatches now data q).all (fun o => pathStartsWith o.1 c.1))).isSome := by
    rw [List.find?_isSome]
    exact ⟨t, ht, hpred⟩
  obtain ⟨a, ha⟩ := Option.isSome_iff_exists.mp hfind
  have hamem := List.mem_of_find?_eq_some ha
  have hapred := List.find?_some ha
  have hne : (zMatches now data q).isEmpty = false := by
    cases hcase : zMatches now data q with
    | nil => rw [hcase] at ht; cases ht
    | cons x xs => rfl
  refine ⟨a.1, ?_, ?_, ?_⟩
  · simp only [DirectoryIndex.z, hany, Bool.false_eq_true, if_false, hne, ha]
  · rw [← hfst]
    exact List.mem_map_of_mem _ hamem
  · intro o ho
    have ho' : o ∈ (zMatches now data q).map (fun x => x.1) := by rw [hfst]; exact ho
    obtain ⟨t2, hto, htoo⟩ := List.mem_map.mp ho'
    rw [← htoo]
    exact List.all_eq_true.mp hapred t2 hto

/-- C2 witness: the short-circuit conjunct applied at the concrete
common-parent index for query "common". -/
theorem C2_ancestor_short_circuit_witness :
    (∀ pe ∈ ([("/a/common", { rank := 100, last_accessed := 100 }),
        ("/a/common/child", { rank := 200, last_accessed := 200 }),
        ("/a/common/child/grandchild", { rank := 300, last_accessed := 300 })] :
        IndexData), pe.2.last_accessed ≤ 1000) ∧
    (∃ m' , DirectoryIndex.z (fun _ => true) 1000
        [("/a/common", { rank := 100, last_accessed := 100 }),
         ("/a/common/child", { rank := 200, last_accessed := 200 }),
         ("/a/common/child/grandchild", { rank := 300, last_accessed := 300 })]
        "common" =
        some (some m',
          [("/a/common", { rank := 100, last_accessed := 100 }),
           ("/a/common/child", { rank := 200, last_accessed := 200 }),
           ("/a/common/child/grandchild", { rank := 300, last_accessed := 300 })],
          false) ∧
      m' ∈ matchedPaths
        [("/a/common", { rank := 100, last_accessed := 100 }),
         ("/a/common/child", { rank := 200, last_accessed := 200 }),
         ("/a/common/child/grandchild", { rank := 300, last_accessed := 300 })]
        "common" ∧
      ∀ o ∈ matchedPaths
        [("/a/common", { rank := 100, last_accessed := 100 }),
         ("/a/common/child", { rank := 200, last_accessed := 200 }),
         ("/a/common/child/grandchild", { rank := 300, last_accessed := 300 })]
        "common", pathStartsWith o m' = true) :=
  ⟨by decide,
    C2_ancestor_short_circuit.1 (fun _ => true) 1000
      [("/a/common", { rank := 100, last_accessed := 100 }),
       ("/a/common/child", { rank := 200, last_accessed := 200 }),
       ("/a/common/child/grandchild", { rank := 300, last_accessed := 300 })]
      "common" (by decide) ⟨"/a/common", by decide, by decide⟩⟩

/-! ## C6 -/

theorem string_mk_data (s : String) : String.mk s.data = s := rfl

/-- Folding SearchInput::push over a character list appends the characters to
the value and bumps the index by their count, leaving every other field
alone. -/
theorem foldl_pushSearchChar (cs : List Char) : ∀ st : App,
    cs.foldl App.pushSearchChar st =
      { st with search_value := String.mk (st.search_value.data ++ cs)
                search_index := st.search_index + cs.length } := by
  induction cs with
  | nil =>
      intro st
      simp [string_mk_data]
  | cons c rest ih =>
      intro st
      rw [List.foldl_cons, ih]
      simp only [App.pushSearchChar, String.push]
      congr 1
      · simp
      · simp [Nat.add_comm, Nat.add_assoc, Nat.add_left_comm]

theorem charsOfCombos_append (a b : List KeyCombo) :
    App.charsOfCombos (a ++ b) = App.charsOfCombos a ++ App.charsOfCombos b :=
  List.filterMap_append a b _

/-- C6 (amended): a keystroke at or after the inactivity timeout in Search
mode takes the stale-flush branch: every buffered KeyCombo's character AND
the new keystroke's character (when it is a plain character key) are appended
to the literal search text, the filter is re-run, and the buffer and timer
are cleared — the handler returns at that point, so the new key is neither
appended to the buffer nor resolved against the hotkey registry, and no
action effect is produced. -/
theorem C6_search_stale_flush (reg : HotkeysRegistry InputMode Action)
    (now : Nat) (st : App) (key : KeyCombo) (t : Nat)
    (ht : st.last_key_press_time = some t)
    (htimeout : App.INACTIVITY_TIMEOUT ≤ now - t) :
    App.handle_key_event_for_search_mode reg now st key = App.searchFlushStale st key ∧
    App.searchFlushStale st key =
      ({ App.update_filtered_indices
          { st with
            search_value := String.mk (st.search_value.data ++
              App.charsOfCombos (st.collected_key_combos ++ [key]))
            search_index := st.search_index +
              (App.charsOfCombos (st.collected_key_combos ++ [key])).length } with
          collected_key_combos := [], last_key_press_time := none }, none) ∧
    (App.handle_key_event_for_search_mode reg now st key).1.collected_key_combos = [] ∧
    (App.handle_key_event_for_search_mode reg now st key).1.last_key_press_time = none ∧
    (App.handle_key_event_for_search_mode reg now st key).2 = none := by
  have h1 : App.handle_key_event_for_search_mode reg now st key =
      App.searchFlushStale st key := by
    simp only [App.handle_key_event_for_search_mode, ht]
    rw [if_pos htimeout]
  have h2 : App.searchFlushStale st key =
      ({ App.update_filtered_indices
          { st with
            search_value := String.mk (st.search_value.data ++
              App.charsOfCombos (st.collected_key_combos ++ [key]))
            search_index := st.search_index +
              (App.charsOfCombos (st.collected_key_combos ++ [key])).length } with
          collected_key_combos := [], last_key_press_time := none }, none) := by
    simp only [App.searchFlushStale, foldl_pushSearchChar, charsOfCombos_append]
    rcases key with ⟨kc, m⟩
    cases kc with
    | char c =>
        simp [App.pushSearchChar, App.charsOfCombos, String.push, Nat.add_assoc]
    | home => simp [App.charsOfCombos]
    | endKey => simp [App.charsOfCombos]
    | esc => simp [App.charsOfCombos]
    | enter => simp [App.charsOfCombos]
    | backspace => simp [App.charsOfCombos]
    | up => simp [App.charsOfCombos]
    | down => simp [App.charsOfCombos]
  refine ⟨h1, h2, ?_, ?_, ?_⟩ <;> rw [h1, h2]

/-- C6 witness: the stale branch taken at a concrete Search-mode state. -/
theorem C6_search_stale_flush_witness :
    (App.INACTIVITY_TIMEOUT ≤ 500 - 0) ∧
    App.handle_key_event_for_search_mode new_with_default_system_hotkeys 500
        { should_exit := false, input_mode := InputMode.search, search_value := "ab"
          search_index := 2, entry_items := [], filtered_indices := none
          list_selected := none, collected_key_combos := [KeyCombo.fromChar 'g']
          last_key_press_time := some 0 }
        (KeyCombo.fromCode KeyCode.backspace) =
      App.searchFlushStale
        { should_exit := false, input_mode := InputMode.search, search_value := "ab"
          search_index := 2, entry_items := [], filtered_indices := none
          list_selected := none, collected_key_combos := [KeyCombo.fromChar 'g']
          last_key_press_time := some 0 }
        (KeyCombo.fromCode KeyCode.backspace) :=
  ⟨by decide,
    (C6_search_stale_flush new_with_default_system_hotkeys 500
      { should_exit := false, input_mode := InputMode.search, search_value := "ab"
        search_index := 2, entry_items := [], filtered_indices := none
        list_selected := none, collected_key_combos := [KeyCombo.fromChar 'g']
        last_key_press_time := some 0 }
      (KeyCombo.fromCode KeyCode.backspace) 0 rfl (by decide)).1⟩

/-- C6 counterexample: with a stale buffer containing g and an incoming
Backspace in Search mode, the code flushes g into the search text and returns
("abg"); the claimed behaviour — flush the buffer, then resolve the new key
against the registry like any other keystroke — would execute the
Search-mode Backspace binding and yield "ab". -/
theorem C6_counterexample_stale_key_not_resolved :
    (App.handle_key_event_for_search_mode new_with_default_system_hotkeys 500
        { should_exit := false, input_mode := InputMode.search, search_value := "ab"
          search_index := 2, entry_items := [], filtered_indices := none
          list_selected := none, collected_key_combos := [KeyCombo.fromChar 'g']
          last_key_press_time := some 0 }
        (KeyCombo.fromCode KeyCode.backspace)).1.search_value = "abg" ∧
    (App.claimedSearchStaleStep new_with_default_system_hotkeys 500
        { should_exit := false, input_mode := InputMode.search, search_value := "ab"
          search_index := 2, entry_items := [], filtered_indices := none
          list_selected := none, collected_key_combos := [KeyCombo.fromChar 'g']
          last_key_press_time := some 0 }
        (KeyCombo.fromCode KeyCode.backspace)).1.search_value = "ab" ∧
    ("abg" : String) ≠ "ab" := by
  refine ⟨by decide, by decide, by decide⟩

/-! ## C1 -/

/-- The length loop finds the least exponent at or above its start whose
power covers the directory count, given enough fuel. -/
theorem seqLenFuel_spec (P N : Nat) :
    ∀ (fuel l d : Nat), d < fuel → N ≤ P ^ (l + d) →
      ∃ L, seqLenFuel P N fuel l = some L ∧ N ≤ P ^ L ∧ l ≤ L ∧
        ∀ m, l ≤ m → m < L → P ^ m < N := by
  intro fuel
  induction fuel with
  | zero => intro l d hd; omega
  | succ fuel ih =>
      intro l d hd hcover
      by_cases h : N ≤ P ^ l
      · refine ⟨l, by simp [seqLenFuel, h], h, Nat.le_refl l, ?_⟩
        intro m h1 h2
        omega
      · have hd0 : d ≠ 0 := by
          intro h0
          rw [h0, Nat.add_zero] at hcover
          exact h hcover
        obtain ⟨d', rfl⟩ : ∃ d', d = d' + 1 := ⟨d - 1, by omega⟩
        have hcover' : N ≤ P ^ (l + 1 + d') := by
          have : l + 1 + d' = l + (d' + 1) := by omega
          rw [this]
          exact hcover
        obtain ⟨L, hfind, hle, hlL, hleast⟩ := ih (l + 1) d' (by omega) hcover'
        refine ⟨L, by simp [seqLenFuel, h, hfind], hle, by omega, ?_⟩
        intro m h1 h2
        rcases Nat.eq_or_lt_of_le h1 with rfl | hlt
        · exact Nat.not_le.mp h
        · exact hleast m (by omega) h2

/-- For a pool of at least two keys and at most 2^64 directories (any usize
count), the length loop terminates well within its u32 budget at the least
positive L with N ≤ P^L. -/
theorem computeSeqLen_spec (P N : Nat) (hP : 2 ≤ P) (_hN : 1 ≤ N)
    (hbound : N ≤ 2 ^ 64) :
    ∃ L, computeSeqLen P N = some L ∧ 1 ≤ L ∧ N ≤ P ^ L ∧
      ∀ m, 1 ≤ m → m < L → P ^ m < N := by
  have hcover : N ≤ P ^ (1 + 63) := by
    calc N ≤ 2 ^ 64 := hbound
      _ ≤ P ^ 64 := Nat.pow_le_pow_left hP 64
  obtain ⟨L, hfind, hle, hlL, hleast⟩ :=
    seqLenFuel_spec P N u32_max 1 63 (by norm_num [u32_max]) hcover
  exact ⟨L, hfind, hlL, hle, hleast⟩

theorem generate_sequence_permutations_length (ks : List KeyCombo) :
    ∀ L, (generate_sequence_permutations ks L).length = ks.length ^ L := by
  intro L
  induction L with
  | zero => rfl
  | succ n ih =>
      simp only [generate_sequence_permutations, List.length_flatMap]
      rw [show (List.length ∘ fun k =>
          List.map (fun s => k :: s) (generate_sequence_permutations ks n)) =
          fun _ => ks.length ^ n from funext fun k => by simp [ih]]
      rw [List.map_const']
      simp [Nat.pow_succ, Nat.mul_comm]

theorem generate_sequence_permutations_mem_length (ks : List KeyCombo) :
    ∀ L, ∀ s ∈ generate_sequence_permutations ks L, s.length = L := by
  intro L
  induction L with
  | zero =>
      intro s hs
      simp only [generate_sequence_permutations, List.mem_singleton] at hs
      simp [hs]
  | succ n ih =>
      intro s hs
      simp only [generate_sequence_permutations, List.mem_flatMap, List.mem_map] at hs
      obtain ⟨k, _, t, ht, rfl⟩ := hs
      simp [ih t ht]

theorem generate_sequence_permutations_nodup (ks : List KeyCombo)
    (h : ks.Nodup) : ∀ L, (generate_sequence_permutations ks L).Nodup := by
  intro L
  induction L with
  | zero => simp [generate_sequence_permutations]
  | succ n ih =>
      simp only [generate_sequence_permutations]
      rw [List.nodup_flatMap]
      constructor
      · intro k _
        exact ih.map (fun a b hab => (List.cons.inj hab).2)
      · refine h.imp ?_
        intro a b hab s hsa hsb
        simp only [List.mem_map] at hsa hsb
        obtain ⟨t1, _, rfl⟩ := hsa
        obtain ⟨t2, _, heq⟩ := hsb
        exact hab (List.cons.inj heq).1.symm

theorem directoryIndexesAux_pairwise (ds : List EntryRenderData) :
    ∀ s, (directoryIndexesAux s ds).Pairwise (· < ·) := by
  induction ds with
  | nil => intro s; simp [directoryIndexesAux]
  | cons d rest ih =>
      intro s
      by_cases hd : d.kind = EntryKind.directory
      · simp only [directoryIndexesAux, if_pos hd]
        refine List.Pairwise.cons ?_ (ih (s + 1))
        intro x hx
        obtain ⟨k, _, hxk, _⟩ := directoryIndexesAux_spec rest (s + 1) x hx
        omega
      · simp only [directoryIndexesAux, if_neg hd]
        exact ih (s + 1)

theorem zip_pairwise_fst {α β : Type} (l1 : List α) (l2 : List β)
    (R : α → α → Prop) (h : l1.Pairwise R) :
    (l1.zip l2).Pairwise (fun a b => R a.1 b.1) := by
  rw [List.pairwise_iff_getElem] at h ⊢
  intro i j hi hj hij
  have hi1 : i < l1.length := by rw [List.length_zip] at hi; omega
  have hj1 : j < l1.length := by rw [List.length_zip] at hj; omega
  rw [List.getElem_zip, List.getElem_zip]
  exact h i j hi1 hj1 hij

/-- The assignment loop sets exactly the listed pairs: at each directory index
of a pair, the output datum is the input datum at that index with its sequence
field overwritten by the paired sequence (pairwise-increasing indexes keep
the writes from clobbering one another). -/
theorem applyAssignments_assigned (pairs : List (Nat × List KeyCombo))
    (hpw : pairs.Pairwise (fun a b => a.1 < b.1)) :
    ∀ (reg : HotkeysRegistry InputMode Action) (data : List EntryRenderData),
      ∀ pr ∈ pairs, ((applyAssignments reg data pairs).2)[pr.1]? =
        (data[pr.1]?).map (fun d => { d with key_combo_sequence := some pr.2 }) := by
  revert hpw
  induction pairs with
  | nil => intro _ reg data pr hpr; cases hpr
  | cons hd rest ih =>
      obtain ⟨dj, q⟩ := hd
      intro hpw reg data pr hpr
      obtain ⟨hlt, hrest⟩ := List.pairwise_cons.mp hpw
      rcases List.mem_cons.mp hpr with heq | hpr
      · subst heq
        show ((applyAssignments _ (modifyAt data dj
          (fun d => { d with key_combo_sequence := some q })) rest).2)[dj]? = _
        rw [applyAssignments_snd_getElem_ne rest _ _ dj
          (fun b hb => by have := hlt b hb; omega)]
        exact getElem?_modifyAt_self data dj _
      · have hne : dj ≠ pr.1 := by
          have := hlt pr hpr
          omega
        show ((applyAssignments _ (modifyAt data dj
          (fun d => { d with key_combo_sequence := some q })) rest).2)[pr.1]? = _
        rw [ih hrest _ _ pr hpr, getElem?_modifyAt_ne data dj pr.1 _ hne]

/-- C1 counterexample: with pool size P = 2 and a single eligible directory
(N = 1) the computed length is L = 1 and the entry is assigned the length-1
sequence [a], but the claimed lower bound P^(L-1) < N fails: 2^0 = 1 is not
below 1. -/
theorem C1_counterexample_single_directory :
    (assign_hotkeys HotkeysRegistry.new
        [{ is_dynamic := false, pre := "d", search_hit := "", suffix := ""
           illegal_char_for_hotkey := none, kind := EntryKind.directory
           shortcut := none, key_combo_sequence := none }]
        [KeyCombo.fromChar 'a', KeyCombo.fromChar 's']).map
      (fun r => r.2.map (fun d => d.key_combo_sequence)) =
      some [some [KeyCombo.fromChar 'a']] ∧
    computeSeqLen 2 1 = some 1 ∧
    ¬ ((2 : Nat) ^ (1 - 1) < 1) := by
  refine ⟨by decide, by decide, by decide⟩

/-- C1 (amended): for an available pool of P ≥ 2 distinct keys and
1 ≤ N ≤ 2^64 eligible directories, assign_hotkeys succeeds with the least
positive sequence length L such that N ≤ P^L — hence P^(L-1) < N whenever
N ≥ 2, while N = 1 yields L = 1 — and the N assigned sequences (all of
length L, drawn in generation order) are pairwise distinct. -/
theorem C1_sequence_length_and_distinctness
    (reg : HotkeysRegistry InputMode Action) (data : List EntryRenderData)
    (pool : List KeyCombo)
    (hnodup : (availableCombos data pool).Nodup)
    (hP : 2 ≤ (availableCombos data pool).length)
    (hN : 1 ≤ (directoryIndexes data).length)
    (hbound : (directoryIndexes data).length ≤ 2 ^ 64) :
    ∃ L reg' data',
      computeSeqLen (availableCombos data pool).length
        (directoryIndexes data).length = some L ∧
      assign_hotkeys reg data pool = some (reg', data') ∧ 1 ≤ L ∧
      (directoryIndexes data).length ≤ (availableCombos data pool).length ^ L ∧
      (∀ m, 1 ≤ m → m < L →
        (availableCombos data pool).length ^ m < (directoryIndexes data).length) ∧
      (2 ≤ (directoryIndexes data).length →
        (availableCombos data pool).length ^ (L - 1) < (directoryIndexes data).length) ∧
      ∃ seqs : List (List KeyCombo),
        seqs.length = (directoryIndexes data).length ∧ seqs.Nodup ∧
        (∀ s ∈ seqs, s.length = L) ∧
        (∀ k, k < (directoryIndexes data).length →
          ∃ j s, (directoryIndexes data)[k]? = some j ∧ seqs[k]? = some s ∧
            data'[j]? =
              (data[j]?).map (fun d => { d with key_combo_sequence := some s })) := by
  obtain ⟨L, hcsl, hL1, hLle, hLleast⟩ :=
    computeSeqLen_spec (availableCombos data pool).length
      (directoryIndexes data).length hP hN hbound
  have hpermlen : (generate_sequence_permutations (availableCombos data pool) L).length =
      (availableCombos data pool).length ^ L :=
    generate_sequence_permutations_length _ L
  have hassign : assign_hotkeys reg data pool =
      some (applyAssignments reg.clear_entry_hotkeys data
        ((directoryIndexes data).zip
          (generate_sequence_permutations (availableCombos data pool) L))) := by
    rw [assign_hotkeys_eq, if_neg (by omega), if_neg (by omega), hcsl]
    dsimp only
    rw [if_neg (by omega)]
  refine ⟨L, _, _, hcsl, hassign, hL1, hLle, hLleast, ?_, ?_⟩
  · intro h2
    rcases Nat.eq_or_lt_of_le hL1 with h1 | hgt
    · rw [← h1]
      simpa using h2
    · exact hLleast (L - 1) (by omega) (by omega)
  · refine ⟨(generate_sequence_permutations (availableCombos data pool) L).take
      (directoryIndexes data).length, ?_, ?_, ?_, ?_⟩
    · rw [List.length_take, hpermlen]
      omega
    · exact (List.take_sublist _ _).nodup
        (generate_sequence_permutations_nodup _ hnodup L)
    · intro s hs
      exact generate_sequence_permutations_mem_length _ L s
        (List.mem_of_mem_take hs)
    · intro k hk
      have hkperm : k < (generate_sequence_permutations
          (availableCombos data pool) L).length := by omega
      have hziplen : ((directoryIndexes data).zip
          (generate_sequence_permutations (availableCombos data pool) L)).length =
          (directoryIndexes data).length := by
        rw [List.length_zip]
        omega
      have hkzip : k < ((directoryIndexes data).zip
          (generate_sequence_permutations (availableCombos data pool) L)).length := by
        omega
      have hzipel : ((directoryIndexes data).zip
          (generate_sequence_permutations (availableCombos data pool) L))[k] =
          ((directoryIndexes data).get ⟨k, hk⟩,
            (generate_sequence_permutations (availableCombos data pool) L).get
              ⟨k, hkperm⟩) :=
        List.getElem_zip ..
      have hmem : ((directoryIndexes data).get ⟨k, hk⟩,
          (generate_sequence_permutations (availableCombos data pool) L).get
            ⟨k, hkperm⟩) ∈
          (directoryIndexes data).zip
            (generate_sequence_permutations (availableCombos data pool) L) := by
        rw [← hzipel]
        exact List.getElem_mem hkzip
      have hpw : ((directoryIndexes data).zip
          (generate_sequence_permutations (availableCombos data pool) L)).Pairwise
          (fun a b => a.1 < b.1) :=
        zip_pairwise_fst _ _ _ (directoryIndexesAux_pairwise data 0)
      have hset := applyAssignments_assigned _ hpw reg.clear_entry_hotkeys data _ hmem
      refine ⟨(directoryIndexes data).get ⟨k, hk⟩,
        (generate_sequence_permutations (availableCombos data pool) L).get ⟨k, hkperm⟩,
        List.getElem?_eq_getElem hk, ?_, hset⟩
      rw [List.getElem?_take_of_lt hk, List.getElem?_eq_getElem hkperm]
      rfl

/-- C1 witness: two directories over the two-key pool [a, s] get the distinct
length-1 sequences. -/
theorem C1_sequence_length_and_distinctness_witness :
    ((availableCombos
        [{ is_dynamic := false, pre := "d", search_hit := "", suffix := ""
           illegal_char_for_hotkey := none, kind := EntryKind.directory
           shortcut := none, key_combo_sequence := none },
         { is_dynamic := false, pre := "e", search_hit := "", suffix := ""
           illegal_char_for_hotkey := none, kind := EntryKind.directory
           shortcut := none, key_combo_sequence := none }]
        [KeyCombo.fromChar 'a', KeyCombo.fromChar 's']).Nodup) ∧
    (∃ L reg' data',
      computeSeqLen (availableCombos
        [{ is_dynamic := false, pre := "d", search_hit := "", suffix := ""
           illegal_char_for_hotkey := none, kind := EntryKind.directory
           shortcut := none, key_combo_sequence := none },
         { is_dynamic := false, pre := "e", search_hit := "", suffix := ""
           illegal_char_for_hotkey := none, kind := EntryKind.directory
           shortcut := none, key_combo_sequence := none }]
        [KeyCombo.fromChar 'a', KeyCombo.fromChar 's']).length
        (directoryIndexes
          [{ is_dynamic := false, pre := "d", search_hit := "", suffix := ""
             illegal_char_for_hotkey := none, kind := EntryKind.directory
             shortcut := none, key_combo_sequence := none },
           { is_dynamic := false, pre := "e", search_hit := "", suffix := ""
             illegal_char_for_hotkey := none, kind := EntryKind.directory
             shortcut := none, key_combo_sequence := none }]).length = some L ∧
      assign_hotkeys HotkeysRegistry.new
        [{ is_dynamic := false, pre := "d", search_hit := "", suffix := ""
           illegal_char_for_hotkey := none, kind := EntryKind.directory
           shortcut := none, key_combo_sequence := none },
         { is_dynamic := false, pre := "e", search_hit := "", suffix := ""
           illegal_char_for_hotkey := none, kind := EntryKind.directory
           shortcut := none, key_combo_sequence := none }]
        [KeyCombo.fromChar 'a', KeyCombo.fromChar 's'] = some (reg', data') ∧ 1 ≤ L ∧
      (directoryIndexes
          [{ is_dynamic := false, pre := "d", search_hit := "", suffix := ""
             illegal_char_for_hotkey := none, kind := EntryKind.directory
             shortcut := none, key_combo_sequence := none },
           { is_dynamic := false, pre := "e", search_hit := "", suffix := ""
             illegal_char_for_hotkey := none, kind := EntryKind.directory
             shortcut := none, key_combo_sequence := none }]).length ≤
        (availableCombos
          [{ is_dynamic := false, pre := "d", search_hit := "", suffix := ""
             illegal_char_for_hotkey := none, kind := EntryKind.directory
             shortcut := none, key_combo_sequence := none },
           { is_dynamic := false, pre := "e", search_hit := "", suffix := ""
             illegal_char_for_hotkey := none, kind := EntryKind.directory
             shortcut := none, key_combo_sequence := none }]
          [KeyCombo.fromChar 'a', KeyCombo.fromChar 's']).length ^ L ∧
      (∀ m, 1 ≤ m → m < L →
        (availableCombos
          [{ is_dynamic := false, pre := "d", search_hit := "", suffix := ""
             illegal_char_for_hotkey := none, kind := EntryKind.directory
             shortcut := none, key_combo_sequence := none },
           { is_dynamic := false, pre := "e", search_hit := "", suffix := ""
             illegal_char_for_hotkey := none, kind := EntryKind.directory
             shortcut := none, key_combo_sequence := none }]
          [KeyCombo.fromChar 'a', KeyCombo.fromChar 's']).length ^ m <
        (directoryIndexes
          [{ is_dynamic := false, pre := "d", search_hit := "", suffix := ""
             illegal_char_for_hotkey := none, kind := EntryKind.directory
             shortcut := none, key_combo_sequence := none },
           { is_dynamic := false, pre := "e", search_hit := "", suffix := ""
             illegal_char_for_hotkey := none, kind := EntryKind.directory
             shortcut := none, key_combo_sequence := none }]).length) ∧
      (2 ≤ (directoryIndexes
          [{ is_dynamic := false, pre := "d", search_hit := "", suffix := ""
             illegal_char_for_hotkey := none, kind := EntryKind.directory
             shortcut := none, key_combo_sequence := none },
           { is_dynamic := false, pre := "e", search_hit := "", suffix := ""
             illegal_char_for_hotkey := none, kind := EntryKind.directory
             shortcut := none, key_combo_sequence := none }]).length →
        (availableCombos
          [{ is_dynamic := false, pre := "d", search_hit := "", suffix := ""
             illegal_char_for_hotkey := none, kind := EntryKind.directory
             shortcut := none, key_combo_sequence := none },
           { is_dynamic := false, pre := "e", search_hit := "", suffix := ""
             illegal_char_for_hotkey := none, kind := EntryKind.directory
             shortcut := none, key_combo_sequence := none }]
          [KeyCombo.fromChar 'a', KeyCombo.fromChar 's']).length ^ (L - 1) <
        (directoryIndexes
          [{ is_dynamic := false, pre := "d", search_hit := "", suffix := ""
             illegal_char_for_hotkey := none, kind := EntryKind.directory
             shortcut := none, key_combo_sequence := none },
           { is_dynamic := false, pre := "e", search_hit := "", suffix := ""
             illegal_char_for_hotkey := none, kind := EntryKind.directory
             shortcut := none, key_combo_sequence := none }]).length) ∧
      ∃ seqs : List (List KeyCombo),
        seqs.length = (directoryIndexes
          [{ is_dynamic := false, pre := "d", search_hit := "", suffix := ""
             illegal_char_for_hotkey := none, kind := EntryKind.directory
             shortcut := none, key_combo_sequence := none },
           { is_dynamic := false, pre := "e", search_hit := "", suffix := ""
             illegal_char_for_hotkey := none, kind := EntryKind.directory
             shortcut := none, key_combo_sequence := none }]).length ∧ seqs.Nodup ∧
        (∀ s ∈ seqs, s.length = L) ∧
        (∀ k, k < (directoryIndexes
            [{ is_dynamic := false, pre := "d", search_hit := "", suffix := ""
               illegal_char_for_hotkey := none, kind := EntryKind.directory
               shortcut := none, key_combo_sequence := none },
             { is_dynamic := false, pre := "e", search_hit := "", suffix := ""
               illegal_char_for_hotkey := none, kind := EntryKind.directory
               shortcut := none, key_combo_sequence := none }]).length →
          ∃ j s, (directoryIndexes
              [{ is_dynamic := false, pre := "d", search_hit := "", suffix := ""
                 illegal_char_for_hotkey := none, kind := EntryKind.directory
                 shortcut := none, key_combo_sequence := none },
               { is_dynamic := false, pre := "e", search_hit := "", suffix := ""
                 illegal_char_for_hotkey := none, kind := EntryKind.directory
                 shortcut := none, key_combo_sequence := none }])[k]? = some j ∧
            seqs[k]? = some s ∧
            data'[j]? =
              (([{ is_dynamic := false, pre := "d", search_hit := "", suffix := ""
                   illegal_char_for_hotkey := none, kind := EntryKind.directory
                   shortcut := none, key_combo_sequence := none },
                 { is_dynamic := false, pre := "e", search_hit := "", suffix := ""
                   illegal_char_for_hotkey := none, kind := EntryKind.directory
                   shortcut := none, key_combo_sequence := none }] :
                List EntryRenderData)[j]?).map
                (fun d => { d with key_combo_sequence := some s }))) :=
  ⟨by decide,
    C1_sequence_length_and_distinctness HotkeysRegistry.new
      [{ is_dynamic := false, pre := "d", search_hit := "", suffix := ""
         illegal_char_for_hotkey := none, kind := EntryKind.directory
         shortcut := none, key_combo_sequence := none },
       { is_dynamic := false, pre := "e", search_hit := "", suffix := ""
         illegal_char_for_hotkey := none, kind := EntryKind.directory
         shortcut := none, key_combo_sequence := none }]
      [KeyCombo.fromChar 'a', KeyCombo.fromChar 's']
      (by decide) (by decide) (by decide) (by decide)⟩

/-! ## C9 -/

theorem splitChar_ne_nil (sep : Char) : ∀ cs : List Char, splitChar sep cs ≠ [] := by
  intro cs
  cases cs with
  | nil => simp [splitChar]
  | cons c rest =>
      by_cases h : c = sep
      · simp [splitChar, h]
      · simp only [splitChar, if_neg h]
        rcases hs : splitChar sep rest with _ | ⟨piece, tail⟩
        · simp
        · simp

theorem splitChar_no_sep (sep : Char) :
    ∀ cs : List Char, sep ∉ cs → splitChar sep cs = [cs] := by
  intro cs
  induction cs with
  | nil => intro _; rfl
  | cons c rest ih =>
      intro h
      have hc : c ≠ sep := fun hc => h (hc ▸ List.mem_cons_self c rest)
      have hrest : sep ∉ rest := fun hr => h (List.mem_cons_of_mem c hr)
      simp only [splitChar, if_neg hc, ih hrest]

theorem splitChar_append_sep (sep : Char) :
    ∀ (l rest : List Char), sep ∉ l →
      splitChar sep (l ++ sep :: rest) = l :: splitChar sep rest := by
  intro l
  induction l with
  | nil => intro rest _; simp [splitChar]
  | cons c l' ih =>
      intro rest h
      have hc : c ≠ sep := fun hc => h (hc ▸ List.mem_cons_self c l')
      have hl' : sep ∉ l' := fun hl => h (List.mem_cons_of_mem c hl)
      simp only [List.cons_append, splitChar, if_neg hc]
      rw [show l'.append (sep :: rest) = l' ++ sep :: rest from rfl, ih rest hl']

theorem dropLastEmpty_cons_of_ne_nil (l : List Char) :
    ∀ xs : List (List Char), xs ≠ [] →
      dropLastEmpty (l :: xs) = l :: dropLastEmpty xs := by
  intro xs hxs
  cases xs with
  | nil => cases hxs rfl
  | cons y ys => rfl

/-- A line with no embedded newline splits off the front of the file body. -/
theorem linesOf_split (s : String) (l rest : List Char)
    (hdata : s.data = l ++ '\n' :: rest) (hl : '\n' ∉ l) :
    linesOf s = String.mk l :: linesOf (String.mk rest) := by
  simp only [linesOf, hdata]
  rw [splitChar_append_sep '\n' l rest hl]
  rw [dropLastEmpty_cons_of_ne_nil l _ (splitChar_ne_nil '\n' rest)]
  simp

theorem indexInsert_fresh (p : String) (e : DirectoryIndexEntry) :
    ∀ data : IndexData, p ∉ data.map Prod.fst →
      indexInsert data p e = data ++ [(p, e)] := by
  intro data
  induction data with
  | nil => intro _; rfl
  | cons pe rest ih =>
      intro h
      simp only [List.map_cons, List.mem_cons] at h
      push_neg at h
      have hne : pe.1 ≠ p := fun he => h.1 he.symm
      simp only [indexInsert, if_neg hne]
      rw [ih h.2]
      simp

/-- Parsing one well-formed record line recovers path, rank text and
timestamp text. -/
theorem parseLine_record (parseR : String → Option ℚ) (p r n : String)
    (hp : '|' ∉ p.data) (hr : '|' ∉ r.data) (hn : '|' ∉ n.data) :
    parseLine parseR (String.mk (p.data ++ '|' :: (r.data ++ '|' :: n.data))) =
      some (p, { rank := (parseR r).getD 0, last_accessed := (parseNatStr n).getD 0 }) := by
  simp only [parseLine]
  rw [splitChar_append_sep '|' p.data _ hp, splitChar_append_sep '|' r.data _ hr,
    splitChar_no_sep '|' n.data hn]
  simp [string_mk_data]

/-- The load fold over a saved clean table appends the table to the
accumulator. -/
theorem load_save_aux (parseR : String → Option ℚ) (printR : ℚ → String) :
    ∀ (data acc : IndexData),
      (∀ pe ∈ data, pe.1 ∉ acc.map Prod.fst) →
      (data.map Prod.fst).Nodup →
      (∀ pe ∈ data, '|' ∉ pe.1.data ∧ '\n' ∉ pe.1.data) →
      (∀ pe ∈ data, parseR (printR pe.2.rank) = some pe.2.rank ∧
        '|' ∉ (printR pe.2.rank).data ∧ '\n' ∉ (printR pe.2.rank).data) →
      (∀ pe ∈ data,
        parseNatStr (toString pe.2.last_accessed) = some pe.2.last_accessed ∧
        '|' ∉ (toString pe.2.last_accessed).data ∧
        '\n' ∉ (toString pe.2.last_accessed).data) →
      (linesOf (DirectoryIndex.save_to_disk printR data)).foldl (loadStep parseR) acc =
        acc ++ data := by
  intro data
  induction data with
  | nil =>
      intro acc _ _ _ _ _
      simp [DirectoryIndex.save_to_disk, linesOf, splitChar, dropLastEmpty]
  | cons pe rest ih =>
      intro acc hfresh hnodup h1 h2 h3
      have hpe1 := h1 pe (List.mem_cons_self pe rest)
      have hpe2 := h2 pe (List.mem_cons_self pe rest)
      have hpe3 := h3 pe (List.mem_cons_self pe rest)
      have hline : (DirectoryIndex.save_to_disk printR (pe :: rest)).data =
          (pe.1.data ++ '|' :: ((printR pe.2.rank).data ++ '|' ::
            (toString pe.2.last_accessed).data)) ++ '\n' ::
            (DirectoryIndex.save_to_disk printR rest).data := by
        show (saveLine printR pe ++ DirectoryIndex.save_to_disk printR rest).data = _
        simp [saveLine]
      have hnl : '\n' ∉ pe.1.data ++ '|' :: ((printR pe.2.rank).data ++ '|' ::
          (toString pe.2.last_accessed).data) := by
        intro hmem
        simp only [List.mem_append, List.mem_cons] at hmem
        rcases hmem with h | h | h
        · exact hpe1.2 h
        · cases h
        · rcases h with h | h | h
          · exact hpe2.2.2 h
          · cases h
          · exact hpe3.2.2 h
      rw [linesOf_split _ _ _ hline hnl]
      rw [List.foldl_cons]
      have hstep : loadStep parseR acc
          (String.mk (pe.1.data ++ '|' :: ((printR pe.2.rank).data ++ '|' ::
            (toString pe.2.last_accessed).data))) = acc ++ [pe] := by
        simp only [loadStep]
        rw [show pe.1.data = (pe.1 : String).data from rfl]
        rw [parseLine_record parseR pe.1 (printR pe.2.rank)
          (toString pe.2.last_accessed) hpe1.1 hpe2.2.1 hpe3.2.1]
        rw [hpe2.1, hpe3.1]
        show indexInsert acc pe.1 { rank := pe.2.rank, last_accessed := pe.2.last_accessed } = _
        rw [indexInsert_fresh pe.1 _ acc (hfresh pe (List.mem_cons_self pe rest))]
      have hmkdata : linesOf (String.mk (DirectoryIndex.save_to_disk printR rest).data) =
          linesOf (DirectoryIndex.save_to_disk printR rest) := by
        rw [string_mk_data]
      rw [hstep, hmkdata]
      rw [ih (acc ++ [pe]) ?_ ?_ ?_ ?_ ?_]
      · simp
      · intro qe hqe hmem
        rw [List.map_append] at hmem
        rcases List.mem_append.mp hmem with hacc | hhd
        · exact hfresh qe (List.mem_cons_of_mem pe hqe) hacc
        · simp only [List.map_cons, List.map_nil, List.mem_singleton] at hhd
          have hpnot : pe.1 ∉ rest.map Prod.fst :=
            (List.nodup_cons.mp (by simpa using hnodup)).1
          exact hpnot (hhd ▸ List.mem_map_of_mem Prod.fst hqe)
      · exact (List.nodup_cons.mp (by simpa using hnodup)).2
      · exact fun qe hqe => h1 qe (List.mem_cons_of_mem pe hqe)
      · exact fun qe hqe => h2 qe (List.mem_cons_of_mem pe hqe)
      · exact fun qe hqe => h3 qe (List.mem_cons_of_mem pe hqe)

/-- C9 counterexample: a table whose path contains the field separator is not
reproduced — the saved line "a|b|1|5" has four fields, so loading skips it
and the roundtrip returns the empty table. -/
theorem C9_counterexample_pipe_in_path :
    DirectoryIndex.load_from_disk parseRankSimple
      (DirectoryIndex.save_to_disk printRankSimple
        [("a|b", { rank := 1, last_accessed := 5 })]) = [] ∧
    ([("a|b", { rank := 1, last_accessed := 5 })] : IndexData) ≠ [] := by
  constructor
  · decide
  · decide

/-- C9 (amended): save_to_disk followed by load_from_disk reproduces the
table exactly — same (path, rank, last_accessed) triples — provided no path
contains the field separator or a newline, the paths are distinct (a HashMap
invariant), and the numeric formatting round-trips (the rank formatter in
addition printing no separator or newline); a path containing a pipe or a
newline breaks the three-field line format and is silently dropped. -/
theorem C9_save_load_roundtrip (printR : ℚ → String) (parseR : String → Option ℚ)
    (data : IndexData)
    (hnodup : (data.map Prod.fst).Nodup)
    (h1 : ∀ pe ∈ data, '|' ∉ pe.1.data ∧ '\n' ∉ pe.1.data)
    (h2 : ∀ pe ∈ data, parseR (printR pe.2.rank) = some pe.2.rank ∧
      '|' ∉ (printR pe.2.rank).data ∧ '\n' ∉ (printR pe.2.rank).data)
    (h3 : ∀ pe ∈ data,
      parseNatStr (toString pe.2.last_accessed) = some pe.2.last_accessed ∧
      '|' ∉ (toString pe.2.last_accessed).data ∧
      '\n' ∉ (toString pe.2.last_accessed).data) :
    DirectoryIndex.load_from_disk parseR (DirectoryIndex.save_to_disk printR data) =
      data := by
  show (linesOf (DirectoryIndex.save_to_disk printR data)).foldl (loadStep parseR) [] = data
  rw [load_save_aux parseR printR data [] (by simp) hnodup h1 h2 h3]
  simp

/-- C9 witness: the roundtrip at a concrete one-entry table. -/
theorem C9_save_load_roundtrip_witness :
    ((([("/a", { rank := 1, last_accessed := 5 })] : IndexData).map Prod.fst).Nodup) ∧
    DirectoryIndex.load_from_disk parseRankSimple
      (DirectoryIndex.save_to_disk printRankSimple
        [("/a", { rank := 1, last_accessed := 5 })]) =
      [("/a", { rank := 1, last_accessed := 5 })] :=
  ⟨by decide,
    C9_save_load_roundtrip printRankSimple parseRankSimple
      [("/a", { rank := 1, last_accessed := 5 })]
      (by decide) (by decide) (by decide) (by decide)⟩

end TinyFe
